import Mathlib

/-!
# Verification of the github-hyper browser-extension annotation pipelines

This file gives a shallow embedding, in Lean 4, of the two content-script
pipelines of the `github-hyper` extension:

* the *absolute-time* feature (content script `part_002`): for every
  `relative-time` element it formats the `datetime` attribute and inserts a
  `span` sibling after the element's parent, marking the element with the
  attribute `data-gh-hyper-processed`;
* the *IDE deep-link* feature (content script `part_001`): for every
  `details-collapsible` block holding a monospace file anchor it derives a
  `jetbrains://` URL and inserts a button right after the anchor, marking the
  anchor with `data-ide-link-processed`.

Conventions of the embedding:

* DOM elements are finite trees (`Elem`); an element stores its tag name
  (normalised to the HTML lower-case form, so the JS comparison
  `node.tagName === 'A'` is modelled by `tag = "a"`), its attribute list, its
  own text content and its child elements.  Text nodes are not modelled
  separately: the `text` field carries `textContent`.
* JS strings are Lean `String`s; number-to-string coercion of integers is
  `intStr`; machine arithmetic of `Date` is exact integer arithmetic on
  epoch milliseconds (`Int`), with `/` and `%` (Euclidean, which for the
  positive literal divisors used below coincides with JS `Math.floor`
  division and its always-non-negative modulo).
* fallible operations (`parseInt`, ISO date parsing, `querySelector`) return
  `Option`.
-/

/-! ## JS string primitives -/

/-- Decimal digit character. -/
def digitChar (n : Nat) : Char := Char.ofNat (48 + n)

/-- Fuel-driven decimal printer (structural, so it evaluates by `rfl`). -/
def decCharsAux : Nat → Nat → List Char
  | 0, _ => []
  | fuel+1, n => if n < 10 then [digitChar n] else decCharsAux fuel (n / 10) ++ [digitChar (n % 10)]

/-- Decimal representation of a natural number, as JS `String(n)`. -/
def decChars (n : Nat) : List Char := decCharsAux (n + 1) n

def decStr (n : Nat) : String := String.mk (decChars n)

/-- JS `String(i)` for an integer-valued number. -/
def intChars (i : Int) : List Char :=
  if i < 0 then '-' :: decChars i.natAbs else decChars i.toNat

def intStr (i : Int) : String := String.mk (intChars i)

/-- JS `String.prototype.padStart(len, c)`. -/
def padStartChars (l : List Char) (len : Nat) (c : Char) : List Char :=
  List.replicate (len - l.length) c ++ l

/-- `String(n).padStart(2, '0')` for a non-negative integer component. -/
def pad2 (i : Int) : List Char := padStartChars (intChars i) 2 '0'

/-- JS `String.prototype.trim` (whitespace at both ends removed). -/
def trimChars (l : List Char) : List Char :=
  ((l.dropWhile Char.isWhitespace).reverse.dropWhile Char.isWhitespace).reverse

def trimJS (s : String) : String := String.mk (trimChars s.toList)

/-- Does `hay` start with `needle`? -/
def startsWithL : List Char → List Char → Bool
  | _, [] => true
  | [], _ :: _ => false
  | h :: hs, n :: ns => h = n && startsWithL hs ns

/-- JS `String.prototype.includes`. -/
def containsL : List Char → List Char → Bool
  | [], needle => needle.isEmpty
  | h :: hs, needle => startsWithL (h :: hs) needle || containsL hs needle

def containsStr (s sub : String) : Bool := containsL s.toList sub.toList

/-- Number of positions of `hay` at which `needle` occurs (substring count). -/
def countOccurL : List Char → List Char → Nat
  | [], needle => if needle.isEmpty then 1 else 0
  | h :: hs, needle =>
      (if startsWithL (h :: hs) needle then 1 else 0) + countOccurL hs needle

def countOccurStr (s sub : String) : Nat := countOccurL s.toList sub.toList

/-- Value of a digit run. -/
def digitsVal (ds : List Char) : Nat := ds.foldl (fun acc c => 10 * acc + (c.toNat - 48)) 0

/-- JS `parseInt(s, 10)`: skip leading whitespace, optional sign, then the
longest leading digit run; `NaN` (no digits) is `none`. -/
def parseIntJS (s : String) : Option Int :=
  let l := s.toList.dropWhile Char.isWhitespace
  let signAndRest : Bool × List Char :=
    match l with
    | c :: rest => if c = '-' then (true, rest) else if c = '+' then (false, rest) else (false, l)
    | [] => (false, [])
  let ds := signAndRest.2.takeWhile Char.isDigit
  if ds.isEmpty then none
  else some (if signAndRest.1 then -(digitsVal ds : Int) else (digitsVal ds : Int))

/-! ## `encodeURIComponent` -/

/-- Characters `encodeURIComponent` leaves unescaped:
`A-Z a-z 0-9 - _ . ! ~ * ' ( )`. -/
def isUnreservedURI (c : Char) : Bool :=
  c.isAlpha || c.isDigit ||
    (c = '-' || c = '_' || c = '.' || c = '!' || c = '~' || c = '*' ||
      c = Char.ofNat 39 || c = '(' || c = ')')

/-- UTF-8 bytes of a character (values as `Nat`). -/
def utf8Bytes (c : Char) : List Nat :=
  let n := c.toNat
  if n < 128 then [n]
  else if n < 2048 then [192 + n / 64, 128 + n % 64]
  else if n < 65536 then [224 + n / 4096, 128 + n / 64 % 64, 128 + n % 64]
  else [240 + n / 262144, 128 + n / 4096 % 64, 128 + n / 64 % 64, 128 + n % 64]

/-- Upper-case hex digit. -/
def hexDigitChar (n : Nat) : Char := if n < 10 then digitChar n else Char.ofNat (55 + n)

/-- `%XX` escape of one byte. -/
def pctByte (b : Nat) : List Char := ['%', hexDigitChar (b / 16), hexDigitChar (b % 16)]

def encodeURIComponentChars (l : List Char) : List Char :=
  l.flatMap fun c => if isUnreservedURI c then [c] else (utf8Bytes c).flatMap pctByte

/-- JS `encodeURIComponent`. -/
def encodeURIComponent (s : String) : String :=
  String.mk (encodeURIComponentChars s.toList)

/-! ## URL construction (source: IDE deep-link script, `constructIDEUrl`)

```js
export function constructIDEUrl(filePath, line, column, ideType, projectName) {
  if (!filePath || !projectName) { return ''; }
  const ide = ideType || 'idea';
  return `jetbrains://${ide}/navigate/reference?project=${encodeURIComponent(projectName)}&path=${encodeURIComponent(filePath)}:${line}:${column}`;
}
```
-/

/-- Model of `ideType || 'idea'`: `null`/`undefined` is `none`, and the empty
string is also falsy. -/
def defaultIde : Option String → String
  | none => "idea"
  | some s => if s = "" then "idea" else s

/-- `constructIDEUrl` with the `line`/`column` arguments kept as the raw text
the template literal interpolates (JS is untyped; the function stringifies
whatever it is given). -/
def constructIDEUrlRaw (filePath lineText colText : String) (ideType : Option String)
    (projectName : String) : String :=
  if filePath = "" || projectName = "" then ""
  else
    "jetbrains://" ++ defaultIde ideType ++ "/navigate/reference?project=" ++
      encodeURIComponent projectName ++ "&path=" ++ encodeURIComponent filePath ++
      ":" ++ lineText ++ ":" ++ colText

/-- `constructIDEUrl` as called by the extension (integer line/column). -/
def constructIDEUrl (filePath : String) (line column : Int) (ideType : Option String)
    (projectName : String) : String :=
  constructIDEUrlRaw filePath (intStr line) (intStr column) ideType projectName

/-! ## The DOM model -/

mutual

/-- A DOM element: tag (lower-case), attributes, own text content, children. -/
inductive Elem where
  | mk (tag : String) (attrs : List (String × String)) (text : String) (children : ElemList)
deriving DecidableEq

/-- Children lists, as a mutual inductive so that all tree functions are
structurally recursive (and hence evaluate by `rfl`/`decide`). -/
inductive ElemList where
  | nil
  | cons (e : Elem) (es : ElemList)
deriving DecidableEq

end

def Elem.tag : Elem → String
  | .mk t _ _ _ => t

def Elem.attrs : Elem → List (String × String)
  | .mk _ a _ _ => a

def Elem.text : Elem → String
  | .mk _ _ s _ => s

def Elem.children : Elem → ElemList
  | .mk _ _ _ c => c

/-- `getAttribute`: first binding of the name, if any. -/
def getAttr (a : String) (e : Elem) : Option String :=
  (e.attrs.find? fun p => p.1 == a).map Prod.snd

def hasAttr (a : String) (e : Elem) : Bool := (getAttr a e).isSome

/-- `setAttribute` on an attribute list: replace an existing binding in place,
else append. -/
def setAttrL (a v : String) : List (String × String) → List (String × String)
  | [] => [(a, v)]
  | p :: ps => if p.1 = a then (a, v) :: ps else p :: setAttrL a v ps

def setAttr (a v : String) : Elem → Elem
  | .mk t at_ s c => .mk t (setAttrL a v at_) s c

def ElemList.toList : ElemList → List Elem
  | .nil => []
  | .cons e es => e :: es.toList

def ElemList.ofList : List Elem → ElemList
  | [] => .nil
  | e :: es => .cons e (ElemList.ofList es)

def ElemList.append : ElemList → ElemList → ElemList
  | .nil, l => l
  | .cons e es, l => .cons e (es.append l)

def ElemList.length : ElemList → Nat
  | .nil => 0
  | .cons _ es => es.length + 1

/-- A path from a root element to a descendant: child indices, head first. -/
abbrev DPath := List Nat

def ElemList.get? : ElemList → Nat → Option Elem
  | .nil, _ => none
  | .cons e _, 0 => some e
  | .cons _ es, n+1 => es.get? n

/-- Element addressed by a path (the empty path is the root itself). -/
def getPathE : Elem → DPath → Option Elem
  | e, [] => some e
  | e, i :: p => match e.children.get? i with
    | some c => getPathE c p
    | none => none

mutual

/-- All elements of the subtree rooted at `e` (including `e`, preorder =
document order) matching `pr`, with their paths relative to `e`. -/
def qsaSelf (pr : Elem → Bool) : Elem → List (DPath × Elem)
  | .mk t a s c =>
      (if pr (.mk t a s c) then [(([] : DPath), Elem.mk t a s c)] else []) ++ qsaKids pr 0 c

/-- Matches in the subtrees of a children list, the first child having
index `i`. -/
def qsaKids (pr : Elem → Bool) (i : Nat) : ElemList → List (DPath × Elem)
  | .nil => []
  | .cons c cs =>
      (qsaSelf pr c).map (fun q => (i :: q.1, q.2)) ++ qsaKids pr (i + 1) cs

end

/-- `querySelectorAll`: matching descendants of `e` in document order
(never `e` itself), with paths relative to `e`. -/
def qsa (pr : Elem → Bool) (e : Elem) : List (DPath × Elem) := qsaKids pr 0 e.children

/-- `querySelector`: first matching descendant. -/
def qs (pr : Elem → Bool) (e : Elem) : Option (DPath × Elem) := (qsa pr e).head?

/-- Number of elements of the subtree rooted at `e` satisfying `pr`
(including `e`). -/
def countP (pr : Elem → Bool) (e : Elem) : Nat := (qsaSelf pr e).length

/-! ## Selector predicates used by the two features -/

/-- Whitespace-separated words of a string (for the `class` attribute). -/
def wordsAux : List Char → List Char → List (List Char)
  | [], acc => if acc.isEmpty then [] else [acc.reverse]
  | c :: cs, acc =>
      if c.isWhitespace then
        (if acc.isEmpty then wordsAux cs [] else acc.reverse :: wordsAux cs [])
      else wordsAux cs (c :: acc)

/-- Does the element's `class` attribute contain the given class name? -/
def hasClass (cl : String) (e : Elem) : Bool :=
  (wordsAux ((getAttr "class" e).getD "").toList []).contains cl.toList

def isDetailsE (e : Elem) : Bool := e.tag == "details-collapsible"

def isSummaryE (e : Elem) : Bool := e.tag == "summary"

/-- Selector `a.text-mono`. -/
def isMonoAnchor (e : Elem) : Bool := e.tag == "a" && hasClass "text-mono" e

/-- Selector `td[data-line-number]`. -/
def isLineTd (e : Elem) : Bool := e.tag == "td" && hasAttr "data-line-number" e

/-- Selector `relative-time`. -/
def isRelTime (e : Elem) : Bool := e.tag == "relative-time"

/-- `data-ide-link-processed`, the IDE feature's processed marker. -/
def ideProcessedAttr : String := "data-ide-link-processed"

/-- `data-gh-hyper-processed`, the absolute-time feature's processed marker. -/
def timeProcessedAttr : String := "data-gh-hyper-processed"

/-! ## IDE deep-link feature: derivation functions (source `part_001`) -/

/-- `extractProjectName`, parameterised by `window.location.pathname`: the
regex `^\/[^/]+\/([^/]+)` captures the second path segment, else `''`. -/
def extractProjectName (pathname : String) : String :=
  match pathname.toList with
  | '/' :: rest =>
      let seg1 := rest.takeWhile fun c => c ≠ '/'
      if seg1.isEmpty then ""
      else
        match rest.drop seg1.length with
        | '/' :: rest2 => String.mk (rest2.takeWhile fun c => c ≠ '/')
        | _ => ""
  | _ => ""

/-- `extractFileInfo`: trimmed text content of an `<a>` element, `''` if the
argument is missing or not an anchor. -/
def extractFileInfo (anchorElement : Option Elem) : String :=
  match anchorElement with
  | none => ""
  | some a => if a.tag ≠ "a" then "" else trimJS a.text

/-- `extractLineNumber`: first `td[data-line-number]` descendant, parsed with
`parseInt(·, 10)`; `NaN → 0`, else `Math.max(0, n - 1)`. -/
def extractLineNumber (detailsElement : Option Elem) : Int :=
  match detailsElement with
  | none => 0
  | some d =>
      match qs isLineTd d with
      | none => 0
      | some td =>
          match parseIntJS ((getAttr "data-line-number" td.2).getD "") with
          | none => 0
          | some n => max 0 (n - 1)

/-- `getIDEName`: human-readable IDE name with generic fallback. -/
def getIDEName (ideType : String) : String :=
  (([("idea", "IntelliJ IDEA"), ("web-storm", "WebStorm"), ("pycharm", "PyCharm"),
     ("php-storm", "PhpStorm"), ("rider", "Rider"), ("clion", "CLion"),
     ("goland", "GoLand"), ("rubymine", "RubyMine")].find? fun p => p.1 == ideType).map
    Prod.snd).getD "IDE"

/-- `createDeepLinkButton`: the companion button element.  The hover/click
listeners and the inline style are visual/behavioural and not part of the DOM
data model; the click target URL is recorded as the pseudo-attribute
`data-url` so it stays observable. -/
def createDeepLinkButton (url ideType : String) : Elem :=
  .mk "button"
    [("class", "ide-link-btn"), ("title", "Open in " ++ getIDEName ideType),
     ("data-url", url)]
    "🚀" .nil

/-! ## IDE deep-link feature: locating blocks -/

/-- A located review-comment block: the file anchor (with its absolute path
in the document) and its `details-collapsible` container. -/
structure RawBlock where
  aPath : DPath
  anchor : Elem
  details : Elem
deriving DecidableEq

/-- All `details-collapsible` containers paired with the first `a.text-mono`
of their first `summary`, before the processed/href filters. -/
def rawBlocks (doc : Elem) : List RawBlock :=
  (qsa isDetailsE doc).filterMap fun pd =>
    (qs isSummaryE pd.2).bind fun ps =>
      (qs isMonoAnchor ps.2).map fun pa =>
        ⟨pd.1 ++ ps.1 ++ pa.1, pa.2, pd.2⟩

/-- The href filter of `findReviewCommentBlocks`:
`href && (href.includes('/files/') || href.includes('/blob/'))`. -/
def hrefOk (a : Elem) : Bool :=
  match getAttr "href" a with
  | some h => h ≠ "" && (containsStr h "/files/" || containsStr h "/blob/")
  | none => false

/-- `findReviewCommentBlocks`: located blocks whose anchor is not yet marked
processed and whose href looks like a file link. -/
def findReviewCommentBlocks (doc : Elem) : List RawBlock :=
  (rawBlocks doc).filter fun b => !hasAttr ideProcessedAttr b.anchor && hrefOk b.anchor

/-! ## Batch application of insert-after and mark actions

The two injectors only ever (a) insert freshly built companion elements
immediately after an existing element, and (b) set the processed-marker
attribute on located candidates.  Both loops compute their candidate list in
full before mutating (a static `querySelectorAll`/block list), so one run of
either feature equals the batch application below: `ins` lists, in candidate
document order, pairs of (path of the element after which to insert, the new
companion); `marks` lists paths of elements receiving the marker attribute.
Several insertions after the same element stack in reverse order, exactly as
repeated `insertBefore(x, el.nextSibling)` does. -/

def subIns (i : Nat) (ins : List (DPath × Elem)) : List (DPath × Elem) :=
  ins.filterMap fun q =>
    match q.1 with
    | j :: c :: rest => if j = i then some (c :: rest, q.2) else none
    | _ => none

def insAt (i : Nat) (ins : List (DPath × Elem)) : List Elem :=
  ins.filterMap fun q => if q.1 = [i] then some q.2 else none

def subMarks (i : Nat) (marks : List DPath) : List DPath :=
  marks.filterMap fun q =>
    match q with
    | j :: p => if j = i then some p else none
    | [] => none

mutual

def applyPlan (ma : String) (ins : List (DPath × Elem)) (marks : List DPath) : Elem → Elem
  | .mk t a s c =>
      .mk t (if marks.contains ([] : DPath) then setAttrL ma "true" a else a) s
        (applyKids ma ins marks 0 c)

def applyKids (ma : String) (ins : List (DPath × Elem)) (marks : List DPath) (i : Nat) :
    ElemList → ElemList
  | .nil => .nil
  | .cons c cs =>
      .cons (applyPlan ma (subIns i ins) (subMarks i marks) c)
        (ElemList.append (ElemList.ofList (insAt i ins).reverse)
          (applyKids ma ins marks (i + 1) cs))

end

/-! ## IDE deep-link feature: `injectButtons` -/

structure PassResult where
  doc : Elem
  logs : List String
deriving DecidableEq

def ideWarnNoProject : String :=
  "GitHub Hyper: Cannot inject IDE buttons - project name not found"

/-- The actions one `injectButtons` run performs: for each located block (in
document order) with nonempty trimmed anchor text and nonempty derived URL,
insert a deep-link button right after the anchor and mark the anchor. -/
def idePlan (ideType projectName : String) (doc : Elem) : List (DPath × Elem) :=
  (findReviewCommentBlocks doc).filterMap fun b =>
    let filePath := extractFileInfo (some b.anchor)
    if filePath = "" then none
    else
      let url := constructIDEUrl filePath (extractLineNumber (some b.details)) 0
        (some ideType) projectName
      if url = "" then none
      else some (b.aPath, createDeepLinkButton url ideType)

/-- `injectButtons(ideType, projectName)`: warns and does nothing on an empty
project name; otherwise inserts one button per planned block and marks
exactly the planned anchors (the marker is set right after each successful
insertion; skipped blocks stay unmarked). -/
def injectButtons (ideType projectName : String) (doc : Elem) : PassResult :=
  if projectName = "" then ⟨doc, [ideWarnNoProject]⟩
  else
    let plan := idePlan ideType projectName doc
    ⟨applyPlan ideProcessedAttr plan (plan.map Prod.fst) doc, []⟩

/-- The IDE observer callback for a batch of added element nodes: for each
added node that is, or contains, a `details-collapsible`, it re-runs
`injectButtons` against the whole document (source `part_001`,
`initObserver`). -/
def ideObserverTriggered (node : Elem) : Bool :=
  isDetailsE node || !(qsa isDetailsE node).isEmpty

def ideObserverStep (ideType projectName : String) (doc : Elem) (addedNodes : List Elem) :
    Elem :=
  addedNodes.foldl
    (fun d n => if ideObserverTriggered n then (injectButtons ideType projectName d).doc else d)
    doc

/-! ## IDE deep-link feature: `init` -/

inductive LogEntry where
  | info (msg : String)
  | warn (msg : String)
  | error (msg : String)
deriving DecidableEq

structure InitResult where
  doc : Elem
  observerStarted : Bool
  logs : List LogEntry
deriving DecidableEq

structure IDESettings where
  enableIDEDeepLink : Bool
  ideType : String
deriving DecidableEq

/-- `init` of the IDE feature, over the outcome of the configuration read
(`chrome.storage.sync.get`, which either resolves with settings or rejects),
the page pathname, and the document. -/
def initIDE (config : Except String IDESettings) (pathname : String) (doc : Elem) :
    InitResult :=
  match config with
  | .error e => ⟨doc, false, [.error ("GitHub Hyper: Error initializing IDE deep link: " ++ e)]⟩
  | .ok settings =>
      if !settings.enableIDEDeepLink then
        ⟨doc, false, [.info "GitHub Hyper: IDE deep link feature is disabled"]⟩
      else
        let projectName := extractProjectName pathname
        if projectName = "" then
          ⟨doc, false, [.warn "GitHub Hyper: Could not extract project name from URL"]⟩
        else
          let r := injectButtons settings.ideType projectName doc
          ⟨r.doc, true, r.logs.map LogEntry.warn⟩

/-! ## JS `Date` arithmetic

`new Date(isoString)` is modelled by `parseISO`, producing epoch
milliseconds; the local-time component getters (`getFullYear` …) are modelled
by `localFields` over an ambient timezone offset `tz` given in minutes east
of UTC (so `tz = -date.getTimezoneOffset()`).  The civil-calendar conversions
are the standard era/day-of-era computations on the proleptic Gregorian
calendar, with `/` and `%` on `Int` (Euclidean = floor for the positive
divisors used). -/

/-- Days since 1970-01-01 to calendar date (year, month 1..12, day 1..31). -/
def civilFromDays (z0 : Int) : Int × Int × Int :=
  let z := z0 + 719468
  let era := z / 146097
  let doe := z - era * 146097
  let yoe := (doe - doe / 1460 + doe / 36524 - doe / 146096) / 365
  let y := yoe + era * 400
  let doy := doe - (365 * yoe + yoe / 4 - yoe / 100)
  let mp := (5 * doy + 2) / 153
  let d := doy - (153 * mp + 2) / 5 + 1
  let m := mp + (if mp < 10 then 3 else -9)
  (y + (if m ≤ 2 then 1 else 0), m, d)

/-- Calendar date to days since 1970-01-01. -/
def daysFromCivil (y0 m d : Int) : Int :=
  let y := y0 - (if m ≤ 2 then 1 else 0)
  let era := y / 400
  let yoe := y - era * 400
  let doy := (153 * (m + (if 2 < m then -3 else 9)) + 2) / 5 + d - 1
  let doe := yoe * 365 + yoe / 4 - yoe / 100 + doy
  era * 146097 + doe - 719468

def isLeap (y : Int) : Bool := (y % 4 == 0 && y % 100 != 0) || y % 400 == 0

def daysInMonth (y m : Int) : Int :=
  if m = 2 then (if isLeap y then 29 else 28)
  else if m = 4 ∨ m = 6 ∨ m = 9 ∨ m = 11 then 30
  else 31

/-- The local-time components JS component getters return at epoch instant
`t`, for a fixed offset of `tz` minutes east of UTC. -/
structure DateFields where
  year : Int
  month : Int
  day : Int
  hour : Int
  minute : Int
  second : Int
deriving DecidableEq

def localFields (tz t : Int) : DateFields :=
  let lm := t + tz * 60000
  let ymd := civilFromDays (lm / 86400000)
  ⟨ymd.1, ymd.2.1, ymd.2.2, lm / 3600000 % 24, lm / 60000 % 60, lm / 1000 % 60⟩

/-! ### Parsing ISO-8601 date-time strings (`new Date(isoString)`) -/

/-- Exactly `n` leading digits, with their value and the rest. -/
def readDigits (n : Nat) (l : List Char) : Option (Nat × List Char) :=
  let ds := l.take n
  if ds.length == n && ds.all Char.isDigit then some (digitsVal ds, l.drop n) else none

def eatChar (c : Char) : List Char → Option (List Char)
  | x :: rest => if x = c then some rest else none
  | [] => none

/-- Trailing timezone designator: `Z` or `±HH:MM`, as minutes east of UTC. -/
def parseTZDesignator : List Char → Option (Int × List Char)
  | 'Z' :: rest => some (0, rest)
  | c :: rest =>
      if c = '+' || c = '-' then
        (readDigits 2 rest).bind fun hr =>
          (eatChar ':' hr.2).bind fun r2 =>
            (readDigits 2 r2).bind fun mr =>
              if hr.1 ≤ 23 && mr.1 ≤ 59 then
                some ((if c = '-' then -1 else 1) * ((hr.1 : Int) * 60 + mr.1), mr.2)
              else none
      else none
  | [] => none

/-- Optional `:SS` and `.sss` after `HH:MM`. -/
def parseSecondsPart : List Char → Option (Nat × Nat × List Char)
  | ':' :: rest =>
      (readDigits 2 rest).bind fun sr =>
        if sr.1 ≤ 59 then
          match sr.2 with
          | '.' :: r2 => (readDigits 3 r2).map fun msr => (sr.1, msr.1, msr.2)
          | r2 => some (sr.1, 0, r2)
        else none
  | l => some (0, 0, l)

/-- `new Date(s)` on a date-time-format string, as epoch milliseconds:
`YYYY-MM-DD`, optionally `THH:MM[:SS[.sss]]` and a `Z`/`±HH:MM` designator.
A date-only string is UTC; a date-time string without designator is local
time (hence the `tz` parameter); anything else is an invalid date
(`none`, i.e. the `NaN` time value). -/
def parseISO (tz : Int) (s : String) : Option Int :=
  (readDigits 4 s.toList).bind fun yr =>
    (eatChar '-' yr.2).bind fun r1 =>
      (readDigits 2 r1).bind fun mr =>
        (eatChar '-' mr.2).bind fun r2 =>
          (readDigits 2 r2).bind fun dr =>
            if 1 ≤ mr.1 && mr.1 ≤ 12 && 1 ≤ dr.1 && (dr.1 : Int) ≤ daysInMonth yr.1 mr.1 then
              let dayMs := daysFromCivil yr.1 mr.1 dr.1 * 86400000
              match dr.2 with
              | [] => some dayMs
              | 'T' :: r3 =>
                  (readDigits 2 r3).bind fun hh =>
                    (eatChar ':' hh.2).bind fun r4 =>
                      (readDigits 2 r4).bind fun mi =>
                        if hh.1 ≤ 23 && mi.1 ≤ 59 then
                          (parseSecondsPart mi.2).bind fun sp =>
                            let fields := dayMs + (hh.1 : Int) * 3600000 +
                              (mi.1 : Int) * 60000 + (sp.1 : Int) * 1000 + (sp.2.1 : Int)
                            match sp.2.2 with
                            | [] => some (fields - tz * 60000)
                            | l =>
                                (parseTZDesignator l).bind fun tzd =>
                                  if tzd.2.isEmpty then some (fields - tzd.1 * 60000)
                                  else none
                        else none
              | _ => none
            else none

/-! ### `formatDateTime` (source `part_002`) -/

/-- What the template literal of `formatDateTime` produces on an invalid
date: every component getter returns `NaN`, `String(NaN).padStart(2,'0')` is
`"NaN"`, `NaN >= 0` is false so the sign is `'-'`, and
`Math.floor(Math.abs(NaN)/60)` is `NaN`. -/
def nanDateText : String := "NaN-NaN-NaN NaN:NaN:NaN UTC-NaN"

/-- `formatDateTime(isoString)` of the absolute-time script, over the parse
result of its argument and the ambient offset `tz` (minutes east of UTC):
`yyyy-MM-dd HH:mm:ss UTC±H`. -/
def formatDateTime (tz : Int) (parsed : Option Int) : String :=
  match parsed with
  | none => nanDateText
  | some t =>
      let f := localFields tz t
      String.mk (intChars f.year ++ ('-' :: pad2 f.month) ++ ('-' :: pad2 f.day) ++
        (' ' :: pad2 f.hour) ++ (':' :: pad2 f.minute) ++ (':' :: pad2 f.second) ++
        (' ' :: 'U' :: 'T' :: 'C' :: (if 0 ≤ tz then '+' else '-') ::
          decChars (tz.natAbs / 60)))

/-- `n` digit characters then the rest (for the pattern checker). -/
def eatDigits : Nat → List Char → Option (List Char)
  | 0, l => some l
  | _ + 1, [] => none
  | n + 1, c :: cs => if c.isDigit then eatDigits n cs else none

/-- Anchored checker for the spec pattern
`^\d{4}-\d{2}-\d{2} \d{2}:\d{2}:\d{2}` followed by a `UTC±H` suffix. -/
def matchesDateTimePattern (s : String) : Bool :=
  ((eatDigits 4 s.toList).bind fun r =>
    (eatChar '-' r).bind fun r =>
      (eatDigits 2 r).bind fun r =>
        (eatChar '-' r).bind fun r =>
          (eatDigits 2 r).bind fun r =>
            (eatChar ' ' r).bind fun r =>
              (eatDigits 2 r).bind fun r =>
                (eatChar ':' r).bind fun r =>
                  (eatDigits 2 r).bind fun r =>
                    (eatChar ':' r).bind fun r =>
                      (eatDigits 2 r).bind fun r =>
                        (eatChar ' ' r).bind fun r =>
                          (eatChar 'U' r).bind fun r =>
                            (eatChar 'T' r).bind fun r =>
                              (eatChar 'C' r).bind fun r =>
                                match r with
                                | c :: rest =>
                                    if (c = '+' || c = '-') && !rest.isEmpty &&
                                        rest.all Char.isDigit then
                                      some ()
                                    else none
                                | [] => none).isSome

/-! ## Absolute-time feature (source `part_002`) -/

/-- The companion label element built by `processRelativeTime` (class, the
four inline style properties set one by one, and the formatted text). -/
def mkAbsoluteSpan (formatted : String) : Elem :=
  .mk "span"
    [("class", "gh-hyper-absolute-time"), ("style.display", "block"),
     ("style.fontSize", "10px"), ("style.color", "#656d76"),
     ("style.marginLeft", "2px")]
    formatted .nil

def ElemList.set : ElemList → Nat → Elem → ElemList
  | .nil, _, _ => .nil
  | .cons _ es, 0, x => .cons x es
  | .cons e es, n + 1, x => .cons e (es.set n x)

def ElemList.insertAt : ElemList → Nat → Elem → ElemList
  | l, 0, x => .cons x l
  | .nil, _ + 1, x => .cons x .nil
  | .cons e es, n + 1, x => .cons e (es.insertAt n x)

def setChild (i : Nat) (x : Elem) : Elem → Elem
  | .mk t a s c => .mk t a s (c.set i x)

def insertChildAt (i : Nat) (x : Elem) : Elem → Elem
  | .mk t a s c => .mk t a s (c.insertAt i x)

/-- Result of `processRelativeTime` on one candidate: the updated grandparent
subtree when the insertion happened, whether the processed marker was set,
and how many warnings were logged. -/
structure OpResult where
  grand : Option Elem
  markerSet : Bool
  warnings : Nat
deriving DecidableEq

/-- `processRelativeTime(el)` on a candidate `c` in context.  `anc` is the
ancestor chain, innermost first: `[(p, i), (g, j)]` means `c` is child `i` of
`p` and `p` is child `j` of `g`; a shorter list means the parent or
grandparent is absent (`parentNode === null`).  Mirrors the source: skip if
already marked; skip if the `datetime` attribute is absent or empty (falsy);
otherwise format, build the span, and if parent and grandparent exist insert
the span right after the parent (`g.insertBefore(span, p.nextSibling)`) and
set the marker on the candidate, else log one warning and set no marker.
The `try/catch` of the source never fires in the model: none of the steps
throws (an invalid date yields `NaN` components, not an exception). -/
def processRelativeTime (tz : Int) (c : Elem) (anc : List (Elem × Nat)) : OpResult :=
  if hasAttr timeProcessedAttr c then ⟨none, false, 0⟩
  else
    match getAttr "datetime" c with
    | none => ⟨none, false, 0⟩
    | some dt =>
        if dt = "" then ⟨none, false, 0⟩
        else
          let span := mkAbsoluteSpan (formatDateTime tz (parseISO tz dt))
          match anc with
          | (p, i) :: (g, j) :: _ =>
              let p' := setChild i (setAttr timeProcessedAttr "true" c) p
              ⟨some (insertChildAt (j + 1) span (setChild j p' g)), true, 0⟩
          | _ => ⟨none, false, 1⟩

/-- Is this element a candidate the time pass will act on (unmarked
`relative-time` with a non-falsy `datetime`)? -/
def timeEligible (e : Elem) : Bool :=
  !hasAttr timeProcessedAttr e && ((getAttr "datetime" e).getD "") ≠ ""

/-- One candidate's contribution to the time pass, given the actions of the
rest of the list. -/
def timeActionsCons (tz : Int) (q : DPath) (e : Elem)
    (acc : List (DPath × Elem) × List DPath × Nat) :
    List (DPath × Elem) × List DPath × Nat :=
  if timeEligible e then
    match q with
    | _ :: _ :: _ =>
        ((q.dropLast,
            mkAbsoluteSpan (formatDateTime tz (parseISO tz ((getAttr "datetime" e).getD "")))) ::
          acc.1, q :: acc.2.1, acc.2.2)
    | _ => (acc.1, acc.2.1, acc.2.2 + 1)
  else acc

/-- Actions of one run of the time pass over a candidate list (document
order): for each eligible candidate deep enough to have both a parent and a
grandparent (path length ≥ 2), insert the formatted span right after the
parent (path `q.dropLast`) and mark the candidate (path `q`); an eligible
candidate without grandparent yields one warning. -/
def timeActions (tz : Int) : List (DPath × Elem) →
    List (DPath × Elem) × List DPath × Nat
  | [] => ([], [], 0)
  | (q, e) :: rest => timeActionsCons tz q e (timeActions tz rest)

/-- `processAllRelativeTimes`: one full-document pass (document-ordered
static snapshot `querySelectorAll('relative-time')`, then
`processRelativeTime` on each), as a batch application; also returns the
number of missing-ancestor warnings. -/
def processAllRelativeTimes (tz : Int) (doc : Elem) : Elem × Nat :=
  let acts := timeActions tz (qsa isRelTime doc)
  (applyPlan timeProcessedAttr acts.1 acts.2.1 doc, acts.2.2)

/-- Candidate list the time observer processes for an added node `n` at
path `p`: the node itself when it directly matches, then its matching
descendants. -/
def timeObserverCandidates (p : DPath) (n : Elem) : List (DPath × Elem) :=
  (if isRelTime n then [(p, n)] else []) ++ (qsa isRelTime n).map fun q => (p ++ q.1, q.2)

/-- The time observer callback for one added element node, located at path
`p` of the document: processes the node itself if it is a `relative-time`,
and every `relative-time` descendant of it — and nothing else (source
`part_002`, `initObserver`). -/
def timeObserverStepAt (tz : Int) (doc : Elem) (p : DPath) : Elem × Nat :=
  match getPathE doc p with
  | none => (doc, 0)
  | some n =>
      let acts := timeActions tz (timeObserverCandidates p n)
      (applyPlan timeProcessedAttr acts.1 acts.2.1 doc, acts.2.2)

/-- `init` of the absolute-time feature over the configuration-read outcome. -/
def initTime (config : Except String Bool) (tz : Int) (doc : Elem) : InitResult :=
  match config with
  | .error e => ⟨doc, false, [.error ("GitHub Hyper: Error initializing: " ++ e)]⟩
  | .ok enabled =>
      if !enabled then
        ⟨doc, false, [.info "GitHub Hyper: Absolute time feature is disabled"]⟩
      else
        let r := processAllRelativeTimes tz doc
        ⟨r.1, true,
          List.replicate r.2 (.warn "GitHub Hyper: Could not find parent for relative-time element")⟩

/-! ## Helper lemmas: the decimal printer -/

lemma digitChar_isDigit {n : Nat} (h : n < 10) : (digitChar n).isDigit = true := by
  interval_cases n <;> decide

lemma digitChar_toNat {n : Nat} (h : n < 10) : (digitChar n).toNat = 48 + n := by
  interval_cases n <;> decide

lemma digitsVal_append_one (l : List Char) (c : Char) :
    digitsVal (l ++ [c]) = 10 * digitsVal l + (c.toNat - 48) := by
  simp [digitsVal, List.foldl_append]

lemma decCharsAux_spec : ∀ fuel n, n < 10 ^ fuel → 0 < fuel →
    decCharsAux fuel n ≠ [] ∧ (decCharsAux fuel n).all Char.isDigit = true ∧
      digitsVal (decCharsAux fuel n) = n := by
  intro fuel
  induction fuel with
  | zero => intro n _ h; omega
  | succ f ih =>
      intro n h _
      by_cases h10 : n < 10
      · refine ⟨by simp [decCharsAux, h10], ?_, ?_⟩
        · simp [decCharsAux, h10, digitChar_isDigit h10]
        · simp [decCharsAux, h10, digitsVal, digitChar_toNat h10]
      · have hf0 : 0 < f := by
          rcases Nat.eq_zero_or_pos f with hf | hf
          · subst hf; omega
          · exact hf
        have hdiv : n / 10 < 10 ^ f := by
          have hp : 10 ^ (f + 1) = 10 ^ f * 10 := pow_succ 10 f
          omega
        obtain ⟨hne, hall, hval⟩ := ih (n / 10) hdiv hf0
        refine ⟨by simp [decCharsAux, h10], ?_, ?_⟩
        · simp only [decCharsAux, if_neg h10, List.all_append, hall]
          simp [digitChar_isDigit (Nat.mod_lt n (by omega) : n % 10 < 10)]
        · simp only [decCharsAux, if_neg h10, digitsVal_append_one, hval,
            digitChar_toNat (Nat.mod_lt n (by omega) : n % 10 < 10)]
          omega

lemma lt_ten_pow_succ (n : Nat) : n < 10 ^ (n + 1) := by
  calc n < 10 ^ n := Nat.lt_pow_self (by norm_num) n
  _ ≤ 10 ^ (n + 1) := Nat.pow_le_pow_right (by norm_num) (Nat.le_succ n)

lemma decChars_spec (n : Nat) :
    decChars n ≠ [] ∧ (decChars n).all Char.isDigit = true ∧ digitsVal (decChars n) = n :=
  decCharsAux_spec (n + 1) n (lt_ten_pow_succ n) (Nat.succ_pos n)

lemma decCharsAux_fuel_irrel : ∀ f1 f2 n, n < 10 ^ f1 → n < 10 ^ f2 →
    0 < f1 → 0 < f2 → decCharsAux f1 n = decCharsAux f2 n := by
  intro f1
  induction f1 with
  | zero => intro _ _ _ _ _ h; omega
  | succ f ih =>
      intro f2 n h1 h2 _ hf2
      obtain ⟨g, rfl⟩ : ∃ g, f2 = g + 1 := ⟨f2 - 1, by omega⟩
      by_cases h10 : n < 10
      · simp [decCharsAux, h10]
      · have hpf : 10 ^ (f + 1) = 10 ^ f * 10 := pow_succ 10 f
        have hpg : 10 ^ (g + 1) = 10 ^ g * 10 := pow_succ 10 g
        have hf0 : 0 < f := by
          rcases Nat.eq_zero_or_pos f with hf | hf
          · subst hf; omega
          · exact hf
        have hg0 : 0 < g := by
          rcases Nat.eq_zero_or_pos g with hg | hg
          · subst hg; omega
          · exact hg
        simp only [decCharsAux, if_neg h10]
        rw [ih g (n / 10) (by omega) (by omega) hf0 hg0]

lemma decChars_eq_fuel (n fuel : Nat) (h : n < 10 ^ fuel) (hf : 0 < fuel) :
    decChars n = decCharsAux fuel n :=
  decCharsAux_fuel_irrel (n + 1) fuel n (lt_ten_pow_succ n) h (by omega) hf

/-- A four-digit number prints as exactly four digit characters. -/
lemma decChars_four {n : Nat} (h1 : 1000 ≤ n) (h2 : n ≤ 9999) :
    decChars n = [digitChar (n / 1000), digitChar (n / 100 % 10),
      digitChar (n / 10 % 10), digitChar (n % 10)] := by
  rw [decChars_eq_fuel n 4 (by omega) (by omega)]
  have e1 : ¬ n < 10 := by omega
  have e2 : ¬ n / 10 < 10 := by omega
  have e3 : ¬ n / 10 / 10 < 10 := by omega
  have e4 : n / 10 / 10 / 10 < 10 := by omega
  simp only [decCharsAux, if_neg e1, if_neg e2, if_neg e3, if_pos e4]
  have d1 : n / 10 / 10 / 10 = n / 1000 := by omega
  have d2 : n / 10 / 10 % 10 = n / 100 % 10 := by omega
  have d3 : n / 10 % 10 = n / 10 % 10 := rfl
  rw [d1, d2]
  simp

lemma isDigit_not_ws {c : Char} (h : c.isDigit = true) : c.isWhitespace = false := by
  unfold Char.isWhitespace
  unfold Char.isDigit at h
  simp only [Bool.and_eq_true, decide_eq_true_eq] at h
  obtain ⟨h1, _⟩ := h
  have w1 : ¬ (c = ' ') := fun hc => by subst hc; exact absurd h1 (by decide)
  have w2 : ¬ (c = '\t') := fun hc => by subst hc; exact absurd h1 (by decide)
  have w3 : ¬ (c = '\x0d') := fun hc => by subst hc; exact absurd h1 (by decide)
  have w4 : ¬ (c = '\n') := fun hc => by subst hc; exact absurd h1 (by decide)
  simp [w1, w2, w3, w4]

lemma isDigit_ne_of_not_digit {c d : Char} (h : c.isDigit = true) (hd : d.isDigit = false) :
    ¬ (c = d) := fun hc => by subst hc; rw [h] at hd; exact absurd hd (by simp)

lemma parseIntJS_decStr (n : Nat) : parseIntJS (decStr n) = some (n : Int) := by
  obtain ⟨hne, hall, hval⟩ := decChars_spec n
  have hdigits : ∀ c ∈ decChars n, c.isDigit = true := fun c hc => List.all_eq_true.mp hall c hc
  have htl : (decStr n).toList = decChars n := rfl
  obtain ⟨c0, rest, hcr⟩ : ∃ c0 rest, decChars n = c0 :: rest := by
    cases h : decChars n with
    | nil => exact absurd h hne
    | cons a b => exact ⟨a, b, rfl⟩
  have hc0 : c0.isDigit = true := hdigits c0 (by rw [hcr]; exact List.mem_cons_self _ _)
  unfold parseIntJS
  rw [htl, hcr]
  rw [List.dropWhile_cons_of_neg (by simp [isDigit_not_ws hc0])]
  have hminus : ¬ (c0 = '-') := isDigit_ne_of_not_digit hc0 (by decide)
  have hplus : ¬ (c0 = '+') := isDigit_ne_of_not_digit hc0 (by decide)
  simp only [if_neg hminus, if_neg hplus]
  have htake : (c0 :: rest).takeWhile Char.isDigit = c0 :: rest :=
    List.takeWhile_eq_self_iff.mpr (by rw [← hcr]; exact hdigits)
  simp only [htake]
  rw [← hcr]
  rw [show (decChars n).isEmpty = false from by rw [hcr]; rfl]
  simp [hval]

/-! ## Claim C10 -/

/-- C10: for every non-empty filePath and projectName, `constructIDEUrl`
percent-encodes only the projectName and filePath arguments; the ideType
(after defaulting to `'idea'`), line and column arguments are interpolated
verbatim, so special characters in them (`/`, `?`, `&`, non-numeric text)
appear literally in the URL.  Stated by exhibiting the exact output shape —
`encodeURIComponent` applied to exactly the two designated arguments, the
others spliced raw — together with a literal special-character instance, and
the fact that the integer call site stringifies line/column before splicing. -/
theorem c10_url_encodes_only_path_and_project
    (fp l c pn : String) (ide : Option String) (line col : Int)
    (hfp : fp ≠ "") (hpn : pn ≠ "") :
    constructIDEUrlRaw fp l c ide pn =
      "jetbrains://" ++ defaultIde ide ++ "/navigate/reference?project=" ++
        encodeURIComponent pn ++ "&path=" ++ encodeURIComponent fp ++
        ":" ++ l ++ ":" ++ c ∧
    constructIDEUrl fp line col ide pn =
      constructIDEUrlRaw fp (intStr line) (intStr col) ide pn ∧
    constructIDEUrlRaw "f.ts" "1x" "2/y" (some "a/b?c&d") "p" =
      "jetbrains://a/b?c&d/navigate/reference?project=p&path=f.ts:1x:2/y" := by
  refine ⟨?_, rfl, by rfl⟩
  simp only [constructIDEUrlRaw, hfp, hpn, decide_False, Bool.or_self, Bool.false_eq_true,
    if_false]

/-- Witness for C10 at concrete inputs. -/
theorem c10_witness :
    constructIDEUrlRaw "a" "1" "0" none "b" =
      "jetbrains://" ++ defaultIde none ++ "/navigate/reference?project=" ++
        encodeURIComponent "b" ++ "&path=" ++ encodeURIComponent "a" ++
        ":" ++ "1" ++ ":" ++ "0" ∧
    constructIDEUrl "a" 1 0 none "b" =
      constructIDEUrlRaw "a" (intStr 1) (intStr 0) none "b" ∧
    constructIDEUrlRaw "f.ts" "1x" "2/y" (some "a/b?c&d") "p" =
      "jetbrains://a/b?c&d/navigate/reference?project=p&path=f.ts:1x:2/y" :=
  c10_url_encodes_only_path_and_project "a" "1" "0" "b" none 1 0
    (by decide) (by decide)

/-! ## Claim C3 -/

/-- The scenario container of C3: a `details-collapsible` whose summary holds
the monospace file anchor with text `"src/file.tsx"` and whose line-number
cell carries `data-line-number="10"`. -/
def c3Details : Elem :=
  .mk "details-collapsible" [] ""
    (.cons
      (.mk "summary" [] ""
        (.cons (.mk "a" [("class", "text-mono"), ("href", "/o/r/files/x")] "src/file.tsx" .nil)
          .nil))
      (.cons (.mk "td" [("data-line-number", "10")] "" .nil) .nil))

/-- Counterexample to C3 as stated: the claim asserts the percent-encoded
filePath occurs *exactly once* in the URL, but for `filePath = "navigate"`
(non-empty, with non-empty project `"p"`) the encoded filePath also occurs in
the fixed `/navigate/reference` segment, i.e. twice in total. -/
theorem c3_counterexample :
    ("navigate" : String) ≠ "" ∧ ("p" : String) ≠ "" ∧
    countOccurStr (constructIDEUrl "navigate" 9 0 (some "idea") "p")
      (encodeURIComponent "navigate") = 2 := by
  refine ⟨by decide, by decide, by rfl⟩

/-- C3 (amended): `constructIDEUrl` returns `""` iff filePath or projectName
is empty; otherwise it returns
`jetbrains://<ideType-or-'idea'>/navigate/reference?project=<enc project>&path=<enc filePath>:<line>:<column>`
with the percent-encoded projectName and filePath each at its designated
component (each occurring exactly *once* whenever the encoded value does not
also occur elsewhere in the URL, which the counterexample `"navigate"` shows
is not automatic); ideType defaults to `'idea'` when absent or empty; and in
the scenario — line cell `"10"`, anchor text `"src/file.tsx"`, tool
`"idea"`, project `"test-project"` — the line number derives to 9 and the
URL is exactly
`jetbrains://idea/navigate/reference?project=test-project&path=src%2Ffile.tsx:9:0`,
each encoded value occurring exactly once. -/
theorem c3_url_empty_iff_and_shape (fp pn : String) (line col : Int) (ide : Option String) :
    (constructIDEUrl fp line col ide pn = "" ↔ fp = "" ∨ pn = "") ∧
    (fp ≠ "" → pn ≠ "" →
      constructIDEUrl fp line col ide pn =
        "jetbrains://" ++ defaultIde ide ++ "/navigate/reference?project=" ++
          encodeURIComponent pn ++ "&path=" ++ encodeURIComponent fp ++
          ":" ++ intStr line ++ ":" ++ intStr col) ∧
    extractLineNumber (some c3Details) = 9 ∧
    constructIDEUrl "src/file.tsx" (extractLineNumber (some c3Details)) 0
        (some "idea") "test-project" =
      "jetbrains://idea/navigate/reference?project=test-project&path=src%2Ffile.tsx:9:0" ∧
    countOccurStr (constructIDEUrl "src/file.tsx" 9 0 (some "idea") "test-project")
      (encodeURIComponent "src/file.tsx") = 1 ∧
    countOccurStr (constructIDEUrl "src/file.tsx" 9 0 (some "idea") "test-project")
      (encodeURIComponent "test-project") = 1 := by
  refine ⟨?_, ?_, by rfl, by rfl, by rfl, by rfl⟩
  · constructor
    · intro h
      by_contra hc
      push_neg at hc
      obtain ⟨hfp, hpn⟩ := hc
      have hshape : constructIDEUrl fp line col ide pn =
          "jetbrains://" ++ (defaultIde ide ++ ("/navigate/reference?project=" ++
            (encodeURIComponent pn ++ ("&path=" ++ (encodeURIComponent fp ++
            (":" ++ (intStr line ++ (":" ++ intStr col)))))))) := by
        simp only [constructIDEUrl, constructIDEUrlRaw, hfp, hpn, decide_False,
          Bool.or_self, Bool.false_eq_true, if_false]
        simp [String.append_assoc]
      rw [hshape] at h
      have hlen := congrArg String.length h
      rw [String.length_append] at hlen
      have h12 : ("jetbrains://" : String).length = 12 := rfl
      have h0 : ("" : String).length = 0 := rfl
      omega
    · intro h
      rcases h with h | h <;> simp [constructIDEUrl, constructIDEUrlRaw, h]
  · intro hfp hpn
    simp only [constructIDEUrl, constructIDEUrlRaw, hfp, hpn, decide_False,
      Bool.or_self, Bool.false_eq_true, if_false]

/-- Witness for C3 (amended) at concrete inputs. -/
theorem c3_witness :
    (constructIDEUrl "x" 1 0 none "y" = "" ↔ ("x" : String) = "" ∨ ("y" : String) = "") ∧
    (("x" : String) ≠ "" → ("y" : String) ≠ "" →
      constructIDEUrl "x" 1 0 none "y" =
        "jetbrains://" ++ defaultIde none ++ "/navigate/reference?project=" ++
          encodeURIComponent "y" ++ "&path=" ++ encodeURIComponent "x" ++
          ":" ++ intStr 1 ++ ":" ++ intStr 0) ∧
    extractLineNumber (some c3Details) = 9 ∧
    constructIDEUrl "src/file.tsx" (extractLineNumber (some c3Details)) 0
        (some "idea") "test-project" =
      "jetbrains://idea/navigate/reference?project=test-project&path=src%2Ffile.tsx:9:0" ∧
    countOccurStr (constructIDEUrl "src/file.tsx" 9 0 (some "idea") "test-project")
      (encodeURIComponent "src/file.tsx") = 1 ∧
    countOccurStr (constructIDEUrl "src/file.tsx" 9 0 (some "idea") "test-project")
      (encodeURIComponent "test-project") = 1 :=
  c3_url_empty_iff_and_shape "x" "y" 1 0 none

/-! ## Claim C4 -/

/-- A container whose line-number cell holds the 1-based number `m`. -/
def c4Container (m : Nat) : Elem :=
  .mk "div" [] "" (.cons (.mk "td" [("data-line-number", decStr m)] "" .nil) .nil)

/-- C4: `extractLineNumber` returns `max 0 (parsed - 1)` with a default of 0:
`0` on a missing container, `0` when no `td[data-line-number]` descendant
exists, `0` when the attribute value does not parse, and `max 0 (n - 1)` when
it parses to `n` — in particular `n - 1` for `n ≥ 1` and `0` for `n ≤ 0`;
and for every natural `m ≥ 1`, a container whose first line-number cell holds
the decimal numeral of `m` yields `m - 1`. -/
theorem c4_extractLineNumber (d td : Elem) (p : DPath) (n : Int) (m : Nat) (hm : 1 ≤ m) :
    extractLineNumber none = 0 ∧
    (qs isLineTd d = none → extractLineNumber (some d) = 0) ∧
    (qs isLineTd d = some (p, td) →
      (parseIntJS ((getAttr "data-line-number" td).getD "") = none →
        extractLineNumber (some d) = 0) ∧
      (parseIntJS ((getAttr "data-line-number" td).getD "") = some n →
        extractLineNumber (some d) = max 0 (n - 1) ∧
        (1 ≤ n → extractLineNumber (some d) = n - 1) ∧
        (n ≤ 0 → extractLineNumber (some d) = 0))) ∧
    extractLineNumber (some (c4Container m)) = (m : Int) - 1 := by
  refine ⟨rfl, ?_, ?_, ?_⟩
  · intro h; simp [extractLineNumber, h]
  · intro h
    constructor
    · intro hp; simp [extractLineNumber, h, hp]
    · intro hp
      refine ⟨by simp [extractLineNumber, h, hp], ?_, ?_⟩
      · intro h1
        simp only [extractLineNumber, h, hp]
        exact max_eq_right (by omega)
      · intro h0
        simp only [extractLineNumber, h, hp]
        exact max_eq_left (by omega)
  · have h1 : extractLineNumber (some (c4Container m)) =
        match parseIntJS (decStr m) with
        | none => 0
        | some k => max 0 (k - 1) := rfl
    rw [h1, parseIntJS_decStr m]
    show max 0 ((m : Int) - 1) = (m : Int) - 1
    exact max_eq_right (by omega)

/-- Witness for C4 at concrete inputs. -/
theorem c4_witness :
    extractLineNumber none = 0 ∧
    (qs isLineTd (c4Container 1) = none → extractLineNumber (some (c4Container 1)) = 0) ∧
    (qs isLineTd (c4Container 1) =
        some ([0], .mk "td" [("data-line-number", decStr 1)] "" .nil) →
      (parseIntJS ((getAttr "data-line-number"
          (Elem.mk "td" [("data-line-number", decStr 1)] "" .nil)).getD "") = none →
        extractLineNumber (some (c4Container 1)) = 0) ∧
      (parseIntJS ((getAttr "data-line-number"
          (Elem.mk "td" [("data-line-number", decStr 1)] "" .nil)).getD "") = some 5 →
        extractLineNumber (some (c4Container 1)) = max 0 (5 - 1) ∧
        (1 ≤ (5 : Int) → extractLineNumber (some (c4Container 1)) = 5 - 1) ∧
        ((5 : Int) ≤ 0 → extractLineNumber (some (c4Container 1)) = 0))) ∧
    extractLineNumber (some (c4Container 1)) = (1 : Int) - 1 :=
  c4_extractLineNumber (c4Container 1) (.mk "td" [("data-line-number", decStr 1)] "" .nil)
    [0] 5 1 (by decide)

/-! ## Claim C7 -/

/-- C7: feature initialization is all-or-nothing.  If the enable flag is
false, `init` logs and returns with the document untouched and no observer
started; if the configuration read rejects, initialization aborts with a
single error log and no partial state (document untouched, no observer); and
for the launcher-button feature, when no project identifier is derivable from
the page location, `init` logs and returns without starting the watcher. -/
theorem c7_init_all_or_nothing (doc : Elem) (pathname msg ideType : String) (tz : Int)
    (hproj : extractProjectName pathname = "") :
    initIDE (.error msg) pathname doc =
      ⟨doc, false, [.error ("GitHub Hyper: Error initializing IDE deep link: " ++ msg)]⟩ ∧
    initIDE (.ok ⟨false, ideType⟩) pathname doc =
      ⟨doc, false, [.info "GitHub Hyper: IDE deep link feature is disabled"]⟩ ∧
    initIDE (.ok ⟨true, ideType⟩) pathname doc =
      ⟨doc, false, [.warn "GitHub Hyper: Could not extract project name from URL"]⟩ ∧
    initTime (.error msg) tz doc =
      ⟨doc, false, [.error ("GitHub Hyper: Error initializing: " ++ msg)]⟩ ∧
    initTime (.ok false) tz doc =
      ⟨doc, false, [.info "GitHub Hyper: Absolute time feature is disabled"]⟩ := by
  refine ⟨rfl, rfl, ?_, rfl, rfl⟩
  simp [initIDE, hproj]

/-- Witness for C7 at concrete inputs. -/
theorem c7_witness :
    initIDE (.error "storage failed") "/onlyowner" (.mk "body" [] "" .nil) =
      ⟨.mk "body" [] "" .nil, false,
        [.error ("GitHub Hyper: Error initializing IDE deep link: " ++ "storage failed")]⟩ ∧
    initIDE (.ok ⟨false, "idea"⟩) "/onlyowner" (.mk "body" [] "" .nil) =
      ⟨.mk "body" [] "" .nil, false,
        [.info "GitHub Hyper: IDE deep link feature is disabled"]⟩ ∧
    initIDE (.ok ⟨true, "idea"⟩) "/onlyowner" (.mk "body" [] "" .nil) =
      ⟨.mk "body" [] "" .nil, false,
        [.warn "GitHub Hyper: Could not extract project name from URL"]⟩ ∧
    initTime (.error "storage failed") 0 (.mk "body" [] "" .nil) =
      ⟨.mk "body" [] "" .nil, false,
        [.error ("GitHub Hyper: Error initializing: " ++ "storage failed")]⟩ ∧
    initTime (.ok false) 0 (.mk "body" [] "" .nil) =
      ⟨.mk "body" [] "" .nil, false,
        [.info "GitHub Hyper: Absolute time feature is disabled"]⟩ :=
  c7_init_all_or_nothing (.mk "body" [] "" .nil) "/onlyowner" "storage failed" "idea" 0
    (by rfl)

/-! ## Helper lemmas: date components and the display pattern -/

set_option maxHeartbeats 1000000 in
lemma civilFromDays_bounds (z : Int) :
    1 ≤ (civilFromDays z).2.1 ∧ (civilFromDays z).2.1 ≤ 12 ∧
    1 ≤ (civilFromDays z).2.2 ∧ (civilFromDays z).2.2 ≤ 31 := by
  unfold civilFromDays
  dsimp only
  split <;> omega

lemma localFields_month_day (tz t : Int) :
    1 ≤ (localFields tz t).month ∧ (localFields tz t).month ≤ 12 ∧
    1 ≤ (localFields tz t).day ∧ (localFields tz t).day ≤ 31 :=
  civilFromDays_bounds ((t + tz * 60000) / 86400000)

lemma localFields_hms (tz t : Int) :
    0 ≤ (localFields tz t).hour ∧ (localFields tz t).hour ≤ 23 ∧
    0 ≤ (localFields tz t).minute ∧ (localFields tz t).minute ≤ 59 ∧
    0 ≤ (localFields tz t).second ∧ (localFields tz t).second ≤ 59 := by
  unfold localFields
  dsimp only
  refine ⟨?_, ?_, ?_, ?_, ?_, ?_⟩ <;> omega

lemma decChars_one {n : Nat} (h : n < 10) : decChars n = [digitChar n] := by
  rw [decChars_eq_fuel n 1 (by simpa using h) (by omega)]
  simp [decCharsAux, h]

lemma decChars_two {n : Nat} (h1 : 10 ≤ n) (h2 : n ≤ 99) :
    decChars n = [digitChar (n / 10), digitChar (n % 10)] := by
  rw [decChars_eq_fuel n 2 (by omega) (by omega)]
  have e1 : ¬ n < 10 := by omega
  have e2 : n / 10 < 10 := by omega
  simp [decCharsAux, e1, e2]

/-- A component in `0..99` pads to exactly two digit characters. -/
lemma pad2_two {i : Int} (h0 : 0 ≤ i) (h99 : i ≤ 99) :
    ∃ a b, pad2 i = [a, b] ∧ a.isDigit = true ∧ b.isDigit = true := by
  have hneg : ¬ i < 0 := by omega
  have htn : i.toNat ≤ 99 := by omega
  unfold pad2 intChars
  rw [if_neg hneg]
  by_cases h10 : i.toNat < 10
  · rw [decChars_one h10]
    exact ⟨'0', digitChar i.toNat, by simp [padStartChars, List.replicate],
      by decide, digitChar_isDigit h10⟩
  · rw [decChars_two (by omega) htn]
    refine ⟨digitChar (i.toNat / 10), digitChar (i.toNat % 10),
      by simp [padStartChars, List.replicate], digitChar_isDigit (by omega),
      digitChar_isDigit (Nat.mod_lt _ (by omega))⟩

lemma eatChar_cons (c : Char) (r : List Char) : eatChar c (c :: r) = some r := by
  simp [eatChar]

lemma eatDigits_two (x y : Char) (r : List Char) (hx : x.isDigit = true)
    (hy : y.isDigit = true) : eatDigits 2 (x :: y :: r) = some r := by
  simp [eatDigits, hx, hy]

lemma eatDigits_four (a b c d : Char) (r : List Char) (ha : a.isDigit = true)
    (hb : b.isDigit = true) (hc : c.isDigit = true) (hd : d.isDigit = true) :
    eatDigits 4 (a :: b :: c :: d :: r) = some r := by
  simp [eatDigits, ha, hb, hc, hd]

/-- The year of a four-digit local date prints as four digit characters. -/
lemma intChars_year {y : Int} (h1 : 1000 ≤ y) (h2 : y ≤ 9999) :
    ∃ a b c d, intChars y = [a, b, c, d] ∧ a.isDigit = true ∧ b.isDigit = true ∧
      c.isDigit = true ∧ d.isDigit = true := by
  have hneg : ¬ y < 0 := by omega
  unfold intChars
  rw [if_neg hneg]
  rw [decChars_four (by omega) (by omega)]
  exact ⟨_, _, _, _, rfl, digitChar_isDigit (by omega), digitChar_isDigit (Nat.mod_lt _ (by omega)),
    digitChar_isDigit (Nat.mod_lt _ (by omega)), digitChar_isDigit (Nat.mod_lt _ (by omega))⟩

/-- Main display-pattern lemma: whenever the local year has four digits, the
formatted output matches `^\d{4}-\d{2}-\d{2} \d{2}:\d{2}:\d{2}` with a
`UTC±H` suffix. -/
lemma formatDateTime_matches (tz t : Int)
    (hy1 : 1000 ≤ (localFields tz t).year) (hy2 : (localFields tz t).year ≤ 9999) :
    matchesDateTimePattern (formatDateTime tz (some t)) = true := by
  obtain ⟨hm1, hm2, hd1, hd2⟩ := localFields_month_day tz t
  obtain ⟨hh1, hh2, hmi1, hmi2, hs1, hs2⟩ := localFields_hms tz t
  obtain ⟨a, b, c, d, hy, ha, hb, hc, hd⟩ := intChars_year hy1 hy2
  obtain ⟨m1, m2, hm, hm1d, hm2d⟩ := pad2_two (by omega) (by omega : (localFields tz t).month ≤ 99)
  obtain ⟨d1, d2, hdd, hd1d, hd2d⟩ := pad2_two (by omega) (by omega : (localFields tz t).day ≤ 99)
  obtain ⟨h1c, h2c, hhh, hh1d, hh2d⟩ := pad2_two hh1 (by omega)
  obtain ⟨i1, i2, hii, hi1d, hi2d⟩ := pad2_two hmi1 (by omega)
  obtain ⟨s1, s2, hss, hs1d, hs2d⟩ := pad2_two hs1 (by omega)
  obtain ⟨hne, hall, _⟩ := decChars_spec (tz.natAbs / 60)
  unfold formatDateTime matchesDateTimePattern
  dsimp only [String.toList]
  rw [hy, hm, hdd, hhh, hii, hss]
  simp only [List.cons_append, List.append_assoc, List.nil_append]
  rw [eatDigits_four a b c d _ ha hb hc hd, Option.some_bind]
  rw [eatChar_cons, Option.some_bind]
  rw [eatDigits_two m1 m2 _ hm1d hm2d, Option.some_bind]
  rw [eatChar_cons, Option.some_bind]
  rw [eatDigits_two d1 d2 _ hd1d hd2d, Option.some_bind]
  rw [eatChar_cons, Option.some_bind]
  rw [eatDigits_two h1c h2c _ hh1d hh2d, Option.some_bind]
  rw [eatChar_cons, Option.some_bind]
  rw [eatDigits_two i1 i2 _ hi1d hi2d, Option.some_bind]
  rw [eatChar_cons, Option.some_bind]
  rw [eatDigits_two s1 s2 _ hs1d hs2d, Option.some_bind]
  rw [eatChar_cons, Option.some_bind]
  rw [eatChar_cons, Option.some_bind]
  rw [eatChar_cons, Option.some_bind]
  rw [eatChar_cons, Option.some_bind]
  have hie : (decChars (tz.natAbs / 60)).isEmpty = false := by
    cases h : decChars (tz.natAbs / 60) with
    | nil => exact absurd h hne
    | cons x xs => rfl
  by_cases htz : 0 ≤ tz
  · simp [htz, hie, hall]
  · simp [htz, hie, hall]

/-! ## Claim C9 -/

/-- Concrete candidate with an unparseable datetime, and its ancestors. -/
def c9Cand : Elem := .mk "relative-time" [("datetime", "not-a-date")] "3 days ago" .nil

def c9Par : Elem := .mk "div" [] "" (.cons c9Cand .nil)

def c9Grand : Elem := .mk "section" [] "" (.cons c9Par .nil)

/-- Counterexample to C9 as stated: a present-but-unparseable datetime is
*not* treated as a skip.  `new Date('not-a-date')` is an invalid date whose
component getters return `NaN` without throwing, so the caller inserts a
label with all-`NaN` text and sets the processed marker — the claim asserts
no label is inserted for that candidate. -/
theorem c9_counterexample :
    parseISO 0 "not-a-date" = none ∧
    processRelativeTime 0 c9Cand [(c9Par, 0), (c9Grand, 0)] =
      ⟨some (insertChildAt 1 (mkAbsoluteSpan nanDateText)
        (setChild 0 (setChild 0 (setAttr timeProcessedAttr "true" c9Cand) c9Par) c9Grand)),
       true, 0⟩ ∧
    ((processRelativeTime 0 c9Cand [(c9Par, 0), (c9Grand, 0)]).grand.map
      fun g => g.children.length) = some 2 ∧
    c9Grand.children.length = 1 := by
  exact ⟨rfl, rfl, rfl, rfl⟩

/-- C9 (amended): for a timestamp candidate whose datetime attribute is
present but not a parseable ISO-8601 instant, the formatter does not fail and
the caller does not skip: exactly one label is inserted with the all-`NaN`
text `"NaN-NaN-NaN NaN:NaN:NaN UTC-NaN"` (which does not match the date-time
pattern) and the marker is set; and for all valid instants whose local-time
year has four digits, the formatted output matches
`^\d{4}-\d{2}-\d{2} \d{2}:\d{2}:\d{2}` followed by the `UTC±H` suffix whose
sign and truncated-to-hour magnitude come from the local offset. -/
theorem c9_nan_label_and_pattern (tz t : Int) (dt : String) (c p g : Elem) (i j : Nat)
    (hmk : hasAttr timeProcessedAttr c = false)
    (hdt : getAttr "datetime" c = some dt) (hne : dt ≠ "")
    (hbad : parseISO tz dt = none)
    (hy1 : 1000 ≤ (localFields tz t).year) (hy2 : (localFields tz t).year ≤ 9999) :
    processRelativeTime tz c [(p, i), (g, j)] =
      ⟨some (insertChildAt (j + 1) (mkAbsoluteSpan nanDateText)
        (setChild j (setChild i (setAttr timeProcessedAttr "true" c) p) g)), true, 0⟩ ∧
    matchesDateTimePattern nanDateText = false ∧
    matchesDateTimePattern (formatDateTime tz (some t)) = true ∧
    (∃ pre, formatDateTime tz (some t) =
      pre ++ " UTC" ++ (if 0 ≤ tz then "+" else "-") ++ decStr (tz.natAbs / 60)) := by
  refine ⟨?_, by rfl, formatDateTime_matches tz t hy1 hy2, ?_⟩
  · simp only [processRelativeTime, hmk, Bool.false_eq_true, if_false, hdt, hne, if_neg,
      hbad, formatDateTime]
  · refine ⟨String.mk (intChars (localFields tz t).year ++
      ('-' :: pad2 (localFields tz t).month) ++ ('-' :: pad2 (localFields tz t).day) ++
      (' ' :: pad2 (localFields tz t).hour) ++ (':' :: pad2 (localFields tz t).minute) ++
      (':' :: pad2 (localFields tz t).second)), ?_⟩
    apply String.ext
    by_cases htz : 0 ≤ tz <;>
      simp [formatDateTime, htz, String.data_append, decStr, List.append_assoc]

/-- Witness for C9 (amended) at concrete inputs. -/
theorem c9_witness :
    processRelativeTime 0 c9Cand [(c9Par, 0), (c9Grand, 0)] =
      ⟨some (insertChildAt (0 + 1) (mkAbsoluteSpan nanDateText)
        (setChild 0 (setChild 0 (setAttr timeProcessedAttr "true" c9Cand) c9Par) c9Grand)),
       true, 0⟩ ∧
    matchesDateTimePattern nanDateText = false ∧
    matchesDateTimePattern (formatDateTime 0 (some 0)) = true ∧
    (∃ pre, formatDateTime 0 (some 0) =
      pre ++ " UTC" ++ (if (0 : Int) ≤ 0 then "+" else "-") ++ decStr ((0 : Int).natAbs / 60)) :=
  c9_nan_label_and_pattern 0 0 "not-a-date" c9Cand c9Par c9Grand 0 0 rfl rfl
    (by decide) rfl (by decide) (by decide)

/-! ## Helper lemmas: children lists and attributes -/

lemma ElemList.get?_isSome_lt : ∀ (l : ElemList) (j : Nat), (l.get? j).isSome → j < l.length
  | .nil, j, h => by simp [ElemList.get?] at h
  | .cons e es, 0, _ => by simp only [ElemList.length]; omega
  | .cons e es, j + 1, h => by
      have := ElemList.get?_isSome_lt es j h
      simp only [ElemList.length]; omega

lemma ElemList.length_set : ∀ (l : ElemList) (j : Nat) (x : Elem), (l.set j x).length = l.length
  | .nil, _, _ => rfl
  | .cons e es, 0, x => rfl
  | .cons e es, j + 1, x => by
      simp [ElemList.set, ElemList.length, ElemList.length_set es j x]

lemma ElemList.length_insertAt : ∀ (l : ElemList) (n : Nat) (x : Elem),
    (l.insertAt n x).length = l.length + 1
  | .nil, 0, x => rfl
  | .nil, _ + 1, x => rfl
  | .cons e es, 0, x => rfl
  | .cons e es, n + 1, x => by
      simp [ElemList.insertAt, ElemList.length, ElemList.length_insertAt es n x]

lemma ElemList.get?_set_self : ∀ (l : ElemList) (j : Nat) (x : Elem),
    (l.get? j).isSome → (l.set j x).get? j = some x
  | .nil, j, x, h => by simp [ElemList.get?] at h
  | .cons e es, 0, x, _ => rfl
  | .cons e es, j + 1, x, h => ElemList.get?_set_self es j x h

lemma ElemList.get?_insertAt_self : ∀ (n : Nat) (l : ElemList) (x : Elem),
    n ≤ l.length → (l.insertAt n x).get? n = some x
  | 0, .nil, x, _ => rfl
  | 0, .cons e es, x, _ => rfl
  | m + 1, .nil, x, h => by simp [ElemList.length] at h
  | m + 1, .cons e es, x, h =>
      ElemList.get?_insertAt_self m es x (by simp [ElemList.length] at h; omega)

lemma ElemList.get?_insertAt_lt : ∀ (n : Nat) (l : ElemList) (x : Elem) (k : Nat),
    k < n → n ≤ l.length → (l.insertAt n x).get? k = l.get? k
  | 0, _, _, k, h, _ => by omega
  | m + 1, .nil, x, k, _, hlen => by simp [ElemList.length] at hlen
  | m + 1, .cons e es, x, 0, _, _ => rfl
  | m + 1, .cons e es, x, k + 1, h, hlen =>
      ElemList.get?_insertAt_lt m es x k (by omega) (by simp [ElemList.length] at hlen; omega)

lemma find?_setAttrL (a v : String) : ∀ l : List (String × String),
    (setAttrL a v l).find? (fun p => p.1 == a) = some (a, v) := by
  intro l
  induction l with
  | nil => simp [setAttrL, List.find?]
  | cons p ps ih =>
      by_cases h : p.1 = a
      · simp [setAttrL, h, List.find?]
      · have hb : (p.1 == a) = false := by
          simp [h]
        simp [setAttrL, h, List.find?, hb, ih]

lemma getAttr_setAttr_self (a v : String) (e : Elem) :
    getAttr a (setAttr a v e) = some v := by
  cases e with
  | mk t at_ s c =>
      unfold setAttr getAttr
      simp [Elem.attrs, find?_setAttrL]

/-! ## Claim C2 -/

set_option maxHeartbeats 1000000 in
/-- C2: for a timestamp element carrying datetime `"2024-03-15T10:30:45Z"`
whose parent and grandparent both exist (the candidate is child `i` of `p`,
which is child `j` of `g`), processing inserts exactly one label element
(the grandparent gains exactly one child), positioned as the sibling
immediately following the candidate's parent inside the grandparent, with
text matching the date-time pattern, and the processed marker on the
candidate is the string `"true"`.  `tz` ranges over real-world UTC offsets
(at most ±24 h), which keeps the local year at 2024. -/
theorem c2_label_after_grandparent (tz : Int) (c p g : Elem) (i j : Nat)
    (htz1 : -1440 ≤ tz) (htz2 : tz ≤ 1440)
    (hmk : hasAttr timeProcessedAttr c = false)
    (hdt : getAttr "datetime" c = some "2024-03-15T10:30:45Z")
    (hci : (p.children.get? i).isSome)
    (hpj : g.children.get? j = some p) :
    processRelativeTime tz c [(p, i), (g, j)] =
      ⟨some (insertChildAt (j + 1)
        (mkAbsoluteSpan (formatDateTime tz (parseISO tz "2024-03-15T10:30:45Z")))
        (setChild j (setChild i (setAttr timeProcessedAttr "true" c) p) g)), true, 0⟩ ∧
    (insertChildAt (j + 1)
        (mkAbsoluteSpan (formatDateTime tz (parseISO tz "2024-03-15T10:30:45Z")))
        (setChild j (setChild i (setAttr timeProcessedAttr "true" c) p) g)).children.length =
      g.children.length + 1 ∧
    (insertChildAt (j + 1)
        (mkAbsoluteSpan (formatDateTime tz (parseISO tz "2024-03-15T10:30:45Z")))
        (setChild j (setChild i (setAttr timeProcessedAttr "true" c) p) g)).children.get? j =
      some (setChild i (setAttr timeProcessedAttr "true" c) p) ∧
    (insertChildAt (j + 1)
        (mkAbsoluteSpan (formatDateTime tz (parseISO tz "2024-03-15T10:30:45Z")))
        (setChild j (setChild i (setAttr timeProcessedAttr "true" c) p) g)).children.get?
      (j + 1) =
      some (mkAbsoluteSpan (formatDateTime tz (parseISO tz "2024-03-15T10:30:45Z"))) ∧
    (setChild i (setAttr timeProcessedAttr "true" c) p).children.get? i =
      some (setAttr timeProcessedAttr "true" c) ∧
    getAttr timeProcessedAttr (setAttr timeProcessedAttr "true" c) = some "true" ∧
    matchesDateTimePattern
      (mkAbsoluteSpan (formatDateTime tz (parseISO tz "2024-03-15T10:30:45Z"))).text = true := by
  have hjlen : j < g.children.length := ElemList.get?_isSome_lt _ j (by rw [hpj]; rfl)
  have hsetlen : ((setChild j (setChild i (setAttr timeProcessedAttr "true" c) p) g)).children.length = g.children.length := by
    cases g with
    | mk t a s ch => exact ElemList.length_set ch j _
  refine ⟨?_, ?_, ?_, ?_, ?_, ?_, ?_⟩
  · simp only [processRelativeTime, hmk, Bool.false_eq_true, if_false, hdt]
    rw [if_neg (by decide : ¬ ("2024-03-15T10:30:45Z" : String) = "")]
  · cases g with
    | mk t a s ch =>
        simp only [insertChildAt, setChild, Elem.children]
        rw [ElemList.length_insertAt, ElemList.length_set]
  · cases g with
    | mk t a s ch =>
        simp only [insertChildAt, setChild, Elem.children] at *
        rw [ElemList.get?_insertAt_lt (j + 1) _ _ j (by omega)
          (by rw [ElemList.length_set]; omega)]
        exact ElemList.get?_set_self ch j _ (by rw [hpj]; rfl)
  · cases g with
    | mk t a s ch =>
        simp only [insertChildAt, setChild, Elem.children] at *
        exact ElemList.get?_insertAt_self (j + 1) _ _ (by rw [ElemList.length_set]; omega)
  · cases p with
    | mk t a s ch =>
        simp only [setChild, Elem.children] at *
        exact ElemList.get?_set_self ch i _ hci
  · exact getAttr_setAttr_self _ _ c
  · have hp : parseISO tz "2024-03-15T10:30:45Z" = some 1710498645000 := rfl
    rw [hp]
    have hyear : 1000 ≤ (localFields tz 1710498645000).year ∧
        (localFields tz 1710498645000).year ≤ 9999 := by
      have hy : (localFields tz 1710498645000).year =
          (civilFromDays ((1710498645000 + tz * 60000) / 86400000)).1 := rfl
      rw [hy]
      have hbound : 19796 ≤ (1710498645000 + tz * 60000) / 86400000 ∧
          (1710498645000 + tz * 60000) / 86400000 ≤ 19798 := by
        constructor <;> omega
      obtain ⟨hb1, hb2⟩ := hbound
      generalize hgen : (1710498645000 + tz * 60000) / 86400000 = d at hb1 hb2 ⊢
      interval_cases d <;> constructor <;> decide
    exact formatDateTime_matches tz 1710498645000 hyear.1 hyear.2

def c2Cand : Elem := .mk "relative-time" [("datetime", "2024-03-15T10:30:45Z")] "" .nil

def c2Par : Elem := .mk "div" [] "" (.cons c2Cand .nil)

def c2Grand : Elem := .mk "section" [] "" (.cons c2Par .nil)

/-- Witness for C2 at concrete inputs. -/
theorem c2_witness :
    processRelativeTime 0 c2Cand [(c2Par, 0), (c2Grand, 0)] =
      ⟨some (insertChildAt (0 + 1)
        (mkAbsoluteSpan (formatDateTime 0 (parseISO 0 "2024-03-15T10:30:45Z")))
        (setChild 0 (setChild 0 (setAttr timeProcessedAttr "true" c2Cand) c2Par) c2Grand)),
       true, 0⟩ ∧
    (insertChildAt (0 + 1)
        (mkAbsoluteSpan (formatDateTime 0 (parseISO 0 "2024-03-15T10:30:45Z")))
        (setChild 0 (setChild 0 (setAttr timeProcessedAttr "true" c2Cand) c2Par) c2Grand)).children.length =
      c2Grand.children.length + 1 ∧
    (insertChildAt (0 + 1)
        (mkAbsoluteSpan (formatDateTime 0 (parseISO 0 "2024-03-15T10:30:45Z")))
        (setChild 0 (setChild 0 (setAttr timeProcessedAttr "true" c2Cand) c2Par) c2Grand)).children.get? 0 =
      some (setChild 0 (setAttr timeProcessedAttr "true" c2Cand) c2Par) ∧
    (insertChildAt (0 + 1)
        (mkAbsoluteSpan (formatDateTime 0 (parseISO 0 "2024-03-15T10:30:45Z")))
        (setChild 0 (setChild 0 (setAttr timeProcessedAttr "true" c2Cand) c2Par) c2Grand)).children.get?
      (0 + 1) =
      some (mkAbsoluteSpan (formatDateTime 0 (parseISO 0 "2024-03-15T10:30:45Z"))) ∧
    (setChild 0 (setAttr timeProcessedAttr "true" c2Cand) c2Par).children.get? 0 =
      some (setAttr timeProcessedAttr "true" c2Cand) ∧
    getAttr timeProcessedAttr (setAttr timeProcessedAttr "true" c2Cand) = some "true" ∧
    matchesDateTimePattern
      (mkAbsoluteSpan (formatDateTime 0 (parseISO 0 "2024-03-15T10:30:45Z"))).text = true :=
  c2_label_after_grandparent 0 c2Cand c2Par c2Grand 0 0 (by decide) (by decide) rfl rfl
    (by rfl) rfl

/-! ## Claim C5 -/

/-- C5: for every timestamp candidate (unmarked, with a non-empty datetime)
whose parent or grandparent is absent (ancestor chain shorter than 2), the
label-insertion operation inserts no label, sets no marker, and logs exactly
one warning; and the failure affects only that candidate: removing such a
candidate from a pass's candidate list changes nothing but the warning count
— the insertions and marks planned for all other candidates are identical. -/
theorem c5_missing_ancestor (tz : Int) (c e : Elem) (anc : List (Elem × Nat)) (q : DPath)
    (l1 l2 : List (DPath × Elem))
    (hrt : isRelTime c = true)
    (hmk : hasAttr timeProcessedAttr c = false)
    (hdtc : ((getAttr "datetime" c).getD "") ≠ "")
    (hshort : anc.length ≤ 1)
    (hel : timeEligible e = true) (hq : q.length ≤ 1) :
    processRelativeTime tz c anc = ⟨none, false, 1⟩ ∧
    timeActions tz (l1 ++ (q, e) :: l2) =
      ((timeActions tz (l1 ++ l2)).1, (timeActions tz (l1 ++ l2)).2.1,
        (timeActions tz (l1 ++ l2)).2.2 + 1) := by
  constructor
  · cases h : getAttr "datetime" c with
    | none => rw [h] at hdtc; exact absurd rfl hdtc
    | some dt =>
        rw [h] at hdtc
        simp only [Option.getD_some] at hdtc
        simp only [processRelativeTime, hmk, Bool.false_eq_true, if_false, h,
          if_neg hdtc]
        match anc, hshort with
        | [], _ => rfl
        | [(p, i)], _ => rfl
  · induction l1 with
    | nil =>
        match q, hq with
        | [], _ => simp [timeActions, timeActionsCons, hel]
        | [a], _ => simp [timeActions, timeActionsCons, hel]
    | cons hd l1' ih =>
        obtain ⟨q0, e0⟩ := hd
        simp only [List.cons_append, timeActions, List.append_eq]
        rw [ih]
        by_cases he0 : timeEligible e0 = true
        · simp only [timeActionsCons, he0, if_true]
          match q0 with
          | [] => rfl
          | [a] => rfl
          | a :: b :: tl => rfl
        · simp only [timeActionsCons, he0, Bool.false_eq_true, if_false]

def c5Cand : Elem := .mk "relative-time" [("datetime", "2024-01-01")] "" .nil

/-- Witness for C5 at concrete inputs. -/
theorem c5_witness :
    processRelativeTime 0 c5Cand [] = ⟨none, false, 1⟩ ∧
    timeActions 0 ([] ++ ([0], c5Cand) :: []) =
      ((timeActions 0 ([] ++ [])).1, (timeActions 0 ([] ++ [])).2.1,
        (timeActions 0 ([] ++ [])).2.2 + 1) :=
  c5_missing_ancestor 0 c5Cand c5Cand [] [0] [] [] rfl rfl (by decide) (by decide) rfl
    (by decide)

/-! ## Correspondence machinery

One run of either feature is `applyPlan` for a plan computed from the static
candidate snapshot.  The lemmas below relate searches (`qsa`) over the
document *after* `applyPlan` to searches over the original document: the
inserted companions are inert for every selector the features use (wrong
tag, no children), and the marker attribute is the only attribute that
changes, so the located elements correspond one-to-one, with known depth and
a known marker update. -/

/-- Residual insertion plan after descending along a path. -/
def insResid (p : DPath) (ins : List (DPath × Elem)) : List (DPath × Elem) :=
  p.foldl (fun acc i => subIns i acc) ins

/-- Residual mark set after descending along a path. -/
def marksResid (p : DPath) (marks : List DPath) : List DPath :=
  p.foldl (fun acc i => subMarks i acc) marks

lemma insResid_nil (ins : List (DPath × Elem)) : insResid [] ins = ins := rfl

lemma insResid_cons (i : Nat) (p : DPath) (ins : List (DPath × Elem)) :
    insResid (i :: p) ins = insResid p (subIns i ins) := rfl

lemma marksResid_nil (marks : List DPath) : marksResid [] marks = marks := rfl

lemma marksResid_cons (i : Nat) (p : DPath) (marks : List DPath) :
    marksResid (i :: p) marks = marksResid p (subMarks i marks) := rfl

lemma insResid_append (p q : DPath) (ins : List (DPath × Elem)) :
    insResid (p ++ q) ins = insResid q (insResid p ins) := by
  simp [insResid, List.foldl_append]

lemma marksResid_append (p q : DPath) (marks : List DPath) :
    marksResid (p ++ q) marks = marksResid q (marksResid p marks) := by
  simp [marksResid, List.foldl_append]

lemma subMarks_mem (i : Nat) (p : DPath) (marks : List DPath) :
    p ∈ subMarks i marks ↔ (i :: p) ∈ marks := by
  unfold subMarks
  rw [List.mem_filterMap]
  constructor
  · rintro ⟨q, hq, hmatch⟩
    rcases q with _ | ⟨j, r⟩
    · exact absurd hmatch (by simp)
    · have hm2 : (if j = i then some r else none) = some p := hmatch
      by_cases hj : j = i
      · subst hj
        rw [if_pos rfl] at hm2
        injection hm2 with hm
        subst hm
        exact hq
      · rw [if_neg hj] at hm2
        cases hm2
  · intro h
    exact ⟨i :: p, h, by simp⟩

lemma contains_eq_mem (l : List DPath) (p : DPath) : l.contains p = decide (p ∈ l) := by
  induction l with
  | nil => simp
  | cons q qs ih => simp [List.contains_cons]

lemma marksResid_contains_nil (p : DPath) (marks : List DPath) :
    (marksResid p marks).contains [] = marks.contains p := by
  induction p generalizing marks with
  | nil => rfl
  | cons i p' ih =>
      rw [marksResid_cons, ih, contains_eq_mem, contains_eq_mem]
      simp only [subMarks_mem]

lemma subIns_snd (i : Nat) (pe : DPath × Elem) (ins : List (DPath × Elem))
    (h : pe ∈ subIns i ins) : ∃ q, (q, pe.2) ∈ ins := by
  unfold subIns at h
  rw [List.mem_filterMap] at h
  obtain ⟨q, hq, hmatch⟩ := h
  rcases q with ⟨q1, b⟩
  rcases q1 with _ | ⟨j, _ | ⟨c0, rest⟩⟩
  · exact absurd hmatch (by simp)
  · exact absurd hmatch (by simp)
  · have hm2 : (if j = i then some (c0 :: rest, b) else none) = some pe := hmatch
    by_cases hj : j = i
    · rw [if_pos hj] at hm2
      injection hm2 with hm
      subst hm
      exact ⟨j :: c0 :: rest, hq⟩
    · rw [if_neg hj] at hm2
      cases hm2

lemma insAt_mem (i : Nat) (b : Elem) (ins : List (DPath × Elem))
    (h : b ∈ insAt i ins) : ([i], b) ∈ ins := by
  unfold insAt at h
  rw [List.mem_filterMap] at h
  obtain ⟨q, hq, hmatch⟩ := h
  have hm2 : (if q.1 = [i] then some q.2 else none) = some b := hmatch
  by_cases hq1 : q.1 = [i]
  · rw [if_pos hq1] at hm2
    injection hm2 with hm
    obtain ⟨q1, q2⟩ := q
    simp only at hq1 hm
    subst hq1; subst hm
    exact hq
  · rw [if_neg hq1] at hm2
    cases hm2

/-- The inserted companions are inert for the selector `pr`: `pr` is false on
them and they have no children, so searches never enter or match them. -/
def InertFor (pr : Elem → Bool) (ins : List (DPath × Elem)) : Prop :=
  ∀ pe ∈ ins, pr pe.2 = false ∧ pe.2.children = ElemList.nil

lemma InertFor_subIns {pr : Elem → Bool} {ins : List (DPath × Elem)} (i : Nat)
    (h : InertFor pr ins) : InertFor pr (subIns i ins) := by
  intro pe hpe
  obtain ⟨q, hq⟩ := subIns_snd i pe ins hpe
  exact h (q, pe.2) hq

lemma InertFor_insAt {pr : Elem → Bool} {ins : List (DPath × Elem)} (i : Nat)
    (h : InertFor pr ins) : ∀ b ∈ insAt i ins, pr b = false ∧ b.children = ElemList.nil :=
  fun b hb => h ([i], b) (insAt_mem i b ins hb)

/-- Path lookup distributes over path concatenation. -/
lemma getPathE_append : ∀ (p q : DPath) (e : Elem),
    getPathE e (p ++ q) = (getPathE e p).bind fun x => getPathE x q := by
  intro p
  induction p with
  | nil => intro q e; rfl
  | cons i p' ih =>
      intro q e
      cases e with
      | mk t a s ch =>
          have hdef : ∀ (pp : DPath), getPathE (Elem.mk t a s ch) (i :: pp) =
              (match ch.get? i with | some c => getPathE c pp | none => none) :=
            fun pp => rfl
          show getPathE (Elem.mk t a s ch) (i :: (p' ++ q)) = _
          rw [hdef, hdef]
          cases h : ch.get? i with
          | none => rfl
          | some c => exact ih q c

mutual

theorem qsaSelf_getPathE (pr : Elem → Bool) : ∀ (e : Elem) (q : DPath) (x : Elem),
    (q, x) ∈ qsaSelf pr e → getPathE e q = some x
  | .mk t a s c, q, x, h => by
      rw [qsaSelf, List.mem_append] at h
      rcases h with h | h
      · have : q = [] ∧ x = Elem.mk t a s c := by
          by_cases hp : pr (Elem.mk t a s c) = true
          · rw [if_pos hp] at h
            simp only [List.mem_singleton, Prod.mk.injEq] at h
            exact h
          · rw [if_neg hp] at h
            cases h
        obtain ⟨rfl, rfl⟩ := this
        rfl
      · have := qsaKids_getPathE pr c 0 q x h
        rcases q with _ | ⟨j, p⟩
        · cases this
        · obtain ⟨hij, c', hc', hx⟩ := this
          show getPathE (Elem.mk t a s c) (j :: p) = some x
          unfold getPathE
          simp only [Elem.children]
          rw [show j - 0 = j from rfl] at hc'
          rw [hc']
          exact hx

theorem qsaKids_getPathE (pr : Elem → Bool) : ∀ (l : ElemList) (i : Nat) (q : DPath) (x : Elem),
    (q, x) ∈ qsaKids pr i l →
      match q with
      | j :: p => i ≤ j ∧ ∃ c, l.get? (j - i) = some c ∧ getPathE c p = some x
      | [] => False
  | .nil, i, q, x, h => by cases h
  | .cons c cs, i, q, x, h => by
      rw [qsaKids, List.mem_append] at h
      rcases h with h | h
      · rw [List.mem_map] at h
        obtain ⟨⟨q', x'⟩, hq', heq⟩ := h
        dsimp only at heq
        rw [Prod.mk.injEq] at heq
        obtain ⟨hq1, hx1⟩ := heq
        rcases q with _ | ⟨j, p⟩
        · cases hq1
        · injection hq1 with hj hp
          refine ⟨by omega, c, ?_, ?_⟩
          · rw [show j - i = 0 by omega]
            rfl
          · have hx2 := qsaSelf_getPathE pr c q' x' hq'
            rw [hp] at hx2
            rw [hx1] at hx2
            exact hx2
      · have := qsaKids_getPathE pr cs (i + 1) q x h
        rcases q with _ | ⟨j, p⟩
        · cases this
        · obtain ⟨hij, c', hc', hx⟩ := this
          refine ⟨by omega, c', ?_, hx⟩
          have : j - i = (j - (i + 1)) + 1 := by omega
          rw [this]
          exact hc'

end

/-- Elements found by `qsa` really sit at the reported path. -/
lemma qsa_getPathE (pr : Elem → Bool) (e : Elem) (q : DPath) (x : Elem)
    (h : (q, x) ∈ qsa pr e) : getPathE e q = some x := by
  have := qsaKids_getPathE pr e.children 0 q x h
  rcases q with _ | ⟨j, p⟩
  · cases this
  · obtain ⟨_, c, hc, hx⟩ := this
    cases e with
    | mk t a s ch =>
        show getPathE (Elem.mk t a s ch) (j :: p) = some x
        unfold getPathE
        simp only [Elem.children] at hc ⊢
        rw [show j - 0 = j from rfl] at hc
        rw [hc]
        exact hx

/-- Depth-and-element view of a search result (sibling insertions shift
indices but never depths, so this is the invariant data). -/
def depthElem (q : DPath × Elem) : Nat × Elem := (q.1.length, q.2)

theorem qsaKids_depth_idx (pr : Elem → Bool) : ∀ (l : ElemList) (j k : Nat),
    (qsaKids pr j l).map depthElem = (qsaKids pr k l).map depthElem
  | .nil, _, _ => rfl
  | .cons c cs, j, k => by
      rw [qsaKids, qsaKids, List.map_append, List.map_append, List.map_map, List.map_map]
      congr 1
      exact qsaKids_depth_idx pr cs (j + 1) (k + 1)

lemma qsaSelf_inert_nil (pr : Elem → Bool) (b : Elem) (hb : pr b = false)
    (hc : b.children = ElemList.nil) : qsaSelf pr b = [] := by
  cases b with
  | mk t a s c =>
      have hcn : c = ElemList.nil := hc
      subst hcn
      rw [qsaSelf, if_neg (by rw [hb]; exact Bool.false_ne_true)]
      rfl

theorem qsaKids_inert_prepend (pr : Elem → Bool) : ∀ (bl : List Elem),
    (∀ b ∈ bl, pr b = false ∧ b.children = ElemList.nil) →
    ∀ (rest : ElemList) (j k : Nat),
    (qsaKids pr j (ElemList.append (ElemList.ofList bl) rest)).map depthElem =
      (qsaKids pr k rest).map depthElem
  | [], _, rest, j, k => qsaKids_depth_idx pr rest j k
  | b :: bs, h, rest, j, k => by
      have hb := h b (List.mem_cons_self _ _)
      show (qsaKids pr j (ElemList.cons b
        (ElemList.append (ElemList.ofList bs) rest))).map depthElem = _
      rw [qsaKids, List.map_append, qsaSelf_inert_nil pr b hb.1 hb.2]
      simp only [List.map_nil, List.nil_append]
      exact qsaKids_inert_prepend pr bs
        (fun x hx => h x (List.mem_cons_of_mem _ hx)) rest (j + 1) k

mutual

theorem applyPlan_qsaSelf (pr : Elem → Bool) (ma : String)
    (hch : ∀ t a s c c', pr (.mk t a s c) = pr (.mk t a s c'))
    (hmk : ∀ t a s c, pr (.mk t (setAttrL ma "true" a) s c) = pr (.mk t a s c)) :
    ∀ (e : Elem) (ins : List (DPath × Elem)) (marks : List DPath), InertFor pr ins →
    (qsaSelf pr (applyPlan ma ins marks e)).map depthElem =
      (qsaSelf pr e).map fun q =>
        (q.1.length, applyPlan ma (insResid q.1 ins) (marksResid q.1 marks) q.2)
  | .mk t a s c, ins, marks, hins => by
      rw [show applyPlan ma ins marks (Elem.mk t a s c) =
          Elem.mk t (if marks.contains [] = true then setAttrL ma "true" a else a) s
            (applyKids ma ins marks 0 c) from rfl]
      rw [qsaSelf, qsaSelf]
      have hpr : pr (Elem.mk t (if marks.contains [] = true then setAttrL ma "true" a else a)
          s (applyKids ma ins marks 0 c)) = pr (Elem.mk t a s c) := by
        by_cases hm : marks.contains [] = true
        · rw [if_pos hm, hch t (setAttrL ma "true" a) s (applyKids ma ins marks 0 c) c]
          exact hmk t a s c
        · rw [if_neg hm]
          exact hch t a s _ c
      rw [List.map_append, List.map_append]
      congr 1
      · rw [hpr]
        by_cases hp : pr (Elem.mk t a s c) = true
        · rw [if_pos hp, if_pos hp]
          rfl
        · rw [if_neg hp, if_neg hp]
          rfl
      · exact applyPlan_qsaKids pr ma hch hmk c ins marks 0 0 hins

theorem applyPlan_qsaKids (pr : Elem → Bool) (ma : String)
    (hch : ∀ t a s c c', pr (.mk t a s c) = pr (.mk t a s c'))
    (hmk : ∀ t a s c, pr (.mk t (setAttrL ma "true" a) s c) = pr (.mk t a s c)) :
    ∀ (l : ElemList) (ins : List (DPath × Elem)) (marks : List DPath) (i j : Nat),
    InertFor pr ins →
    (qsaKids pr j (applyKids ma ins marks i l)).map depthElem =
      (qsaKids pr i l).map fun q =>
        (q.1.length, applyPlan ma (insResid q.1 ins) (marksResid q.1 marks) q.2)
  | .nil, ins, marks, i, j, hins => rfl
  | .cons c cs, ins, marks, i, j, hins => by
      rw [show applyKids ma ins marks i (ElemList.cons c cs) =
          ElemList.cons (applyPlan ma (subIns i ins) (subMarks i marks) c)
            (ElemList.append (ElemList.ofList (insAt i ins).reverse)
              (applyKids ma ins marks (i + 1) cs)) from rfl]
      rw [qsaKids, List.map_append]
      have hbtn : ∀ b ∈ (insAt i ins).reverse, pr b = false ∧ b.children = ElemList.nil :=
        fun b hb => InertFor_insAt i hins b (List.mem_reverse.mp hb)
      rw [qsaKids_inert_prepend pr (insAt i ins).reverse hbtn
        (applyKids ma ins marks (i + 1) cs) (j + 1) (j + 1)]
      rw [applyPlan_qsaKids pr ma hch hmk cs ins marks (i + 1) (j + 1) hins]
      rw [qsaKids, List.map_append]
      congr 1
      rw [List.map_map, List.map_map]
      have hL : (depthElem ∘ fun q : DPath × Elem => ((j :: q.1 : DPath), q.2)) =
          (fun r : Nat × Elem => ((r.1 + 1 : Nat), r.2)) ∘ depthElem := funext fun q => rfl
      rw [hL, ← List.map_map]
      rw [applyPlan_qsaSelf pr ma hch hmk c (subIns i ins) (subMarks i marks)
        (InertFor_subIns i hins)]
      rw [List.map_map]
      rfl

end

lemma find?_setAttrL_ne (att ma v : String) (h : ¬ att = ma) : ∀ l : List (String × String),
    (setAttrL ma v l).find? (fun p => p.1 == att) = l.find? (fun p => p.1 == att) := by
  intro l
  induction l with
  | nil =>
      have : (ma == att) = false := by
        simp only [beq_eq_false_iff_ne, ne_eq]
        intro hh
        exact h hh.symm
      simp [setAttrL, List.find?, this]
  | cons p ps ih =>
      by_cases hp : p.1 = ma
      · have hpa : (p.1 == att) = false := by
          simp only [beq_eq_false_iff_ne, ne_eq, hp]
          intro hh
          exact h hh.symm
        have hma : (ma == att) = false := by
          simp only [beq_eq_false_iff_ne, ne_eq]
          intro hh
          exact h hh.symm
        simp [setAttrL, hp, List.find?, hpa, hma]
      · simp only [setAttrL, if_neg hp, List.find?]
        cases hfp : (p.1 == att) with
        | true => rfl
        | false => exact ih

lemma applyPlan_tag (ma : String) (ins : List (DPath × Elem)) (marks : List DPath) (e : Elem) :
    (applyPlan ma ins marks e).tag = e.tag := by
  cases e with
  | mk t a s c => by_cases hm : marks.contains [] = true <;> simp [applyPlan, hm, Elem.tag]

lemma applyPlan_text (ma : String) (ins : List (DPath × Elem)) (marks : List DPath) (e : Elem) :
    (applyPlan ma ins marks e).text = e.text := by
  cases e with
  | mk t a s c => by_cases hm : marks.contains [] = true <;> simp [applyPlan, hm, Elem.text]

lemma applyPlan_getAttr_ne (att ma : String) (h : ¬ att = ma) (ins : List (DPath × Elem))
    (marks : List DPath) (e : Elem) :
    getAttr att (applyPlan ma ins marks e) = getAttr att e := by
  cases e with
  | mk t a s c =>
      by_cases hm : ([] : DPath) ∈ marks
      · simp only [applyPlan, contains_eq_mem, hm, decide_True, if_true, getAttr, Elem.attrs]
        rw [find?_setAttrL_ne att ma "true" h a]
      · simp only [applyPlan, contains_eq_mem, hm, decide_False, Bool.false_eq_true, if_false,
          getAttr, Elem.attrs]

lemma applyPlan_getAttr_ma (ma : String) (ins : List (DPath × Elem)) (marks : List DPath)
    (e : Elem) :
    getAttr ma (applyPlan ma ins marks e) =
      if ([] : DPath) ∈ marks then some "true" else getAttr ma e := by
  cases e with
  | mk t a s c =>
      by_cases hm : ([] : DPath) ∈ marks
      · simp only [applyPlan, contains_eq_mem, hm, decide_True, if_true, getAttr, Elem.attrs]
        rw [find?_setAttrL ma "true" a]
        rfl
      · simp only [applyPlan, contains_eq_mem, hm, decide_False, Bool.false_eq_true, if_false,
          getAttr, Elem.attrs]

lemma applyPlan_hasAttr_ma (ma : String) (ins : List (DPath × Elem)) (marks : List DPath)
    (e : Elem) :
    hasAttr ma (applyPlan ma ins marks e) =
      (decide (([] : DPath) ∈ marks) || hasAttr ma e) := by
  unfold hasAttr
  rw [applyPlan_getAttr_ma]
  by_cases hm : ([] : DPath) ∈ marks
  · simp [hm]
  · simp [hm]

mutual

theorem applyPlan_nil : ∀ e : Elem, applyPlan ma [] [] e = e
  | .mk t a s c => by
      rw [show applyPlan ma [] [] (Elem.mk t a s c) =
        Elem.mk t a s (applyKids ma [] [] 0 c) from rfl]
      rw [applyKids_nil c 0]

theorem applyKids_nil : ∀ (l : ElemList) (i : Nat), applyKids ma [] [] i l = l
  | .nil, _ => rfl
  | .cons c cs, i => by
      rw [show applyKids ma [] [] i (ElemList.cons c cs) =
        ElemList.cons (applyPlan ma (subIns i []) (subMarks i []) c)
          (ElemList.append (ElemList.ofList (insAt i []).reverse)
            (applyKids ma [] [] (i + 1) cs)) from rfl]
      rw [show subIns i ([] : List (DPath × Elem)) = [] from rfl,
        show subMarks i ([] : List DPath) = [] from rfl,
        show insAt i ([] : List (DPath × Elem)) = [] from rfl]
      rw [applyPlan_nil c, applyKids_nil cs (i + 1)]
      rfl

end

lemma applyPlan_qsa (pr : Elem → Bool) (ma : String)
    (hch : ∀ t a s c c', pr (.mk t a s c) = pr (.mk t a s c'))
    (hmk : ∀ t a s c, pr (.mk t (setAttrL ma "true" a) s c) = pr (.mk t a s c))
    (e : Elem) (ins : List (DPath × Elem)) (marks : List DPath) (hins : InertFor pr ins) :
    (qsa pr (applyPlan ma ins marks e)).map depthElem =
      (qsa pr e).map fun q =>
        (q.1.length, applyPlan ma (insResid q.1 ins) (marksResid q.1 marks) q.2) := by
  cases e with
  | mk t a s c =>
      show (qsaKids pr 0 (applyPlan ma ins marks (Elem.mk t a s c)).children).map depthElem = _
      rw [show (applyPlan ma ins marks (Elem.mk t a s c)).children =
        applyKids ma ins marks 0 c from by
          by_cases hm : marks.contains [] = true <;> simp [applyPlan, hm, Elem.children]]
      exact applyPlan_qsaKids pr ma hch hmk c ins marks 0 0 hins

lemma applyPlan_qs (pr : Elem → Bool) (ma : String)
    (hch : ∀ t a s c c', pr (.mk t a s c) = pr (.mk t a s c'))
    (hmk : ∀ t a s c, pr (.mk t (setAttrL ma "true" a) s c) = pr (.mk t a s c))
    (e : Elem) (ins : List (DPath × Elem)) (marks : List DPath) (hins : InertFor pr ins) :
    (qs pr (applyPlan ma ins marks e)).map Prod.snd =
      (qs pr e).map fun q => applyPlan ma (insResid q.1 ins) (marksResid q.1 marks) q.2 := by
  have h1 := congrArg List.head? (applyPlan_qsa pr ma hch hmk e ins marks hins)
  rw [List.head?_map, List.head?_map] at h1
  have h2 := congrArg (Option.map Prod.snd) h1
  rw [Option.map_map, Option.map_map] at h2
  exact h2

/-! ## The time pass: idempotence ingredients -/

lemma isRelTime_hch : ∀ (t : String) (a : List (String × String)) (s : String)
    (c c' : ElemList), isRelTime (.mk t a s c) = isRelTime (.mk t a s c') :=
  fun _ _ _ _ _ => rfl

lemma isRelTime_hmk (ma : String) : ∀ (t : String) (a : List (String × String)) (s : String)
    (c : ElemList), isRelTime (.mk t (setAttrL ma "true" a) s c) = isRelTime (.mk t a s c) :=
  fun _ _ _ _ => rfl

lemma marksResid_mem_nil (p : DPath) (marks : List DPath) :
    (([] : DPath) ∈ marksResid p marks) ↔ p ∈ marks := by
  have h := marksResid_contains_nil p marks
  rw [contains_eq_mem, contains_eq_mem] at h
  exact decide_eq_decide.mp h

lemma timeActions_ins_spans (tz : Int) : ∀ cands : List (DPath × Elem),
    InertFor isRelTime (timeActions tz cands).1 := by
  intro cands
  induction cands with
  | nil => intro pe hpe; cases hpe
  | cons qe rest ih =>
      obtain ⟨q, e⟩ := qe
      intro pe hpe
      rw [timeActions] at hpe
      unfold timeActionsCons at hpe
      by_cases he : timeEligible e = true
      · rw [if_pos he] at hpe
        match q, hpe with
        | [], hpe => exact ih pe hpe
        | [a], hpe => exact ih pe hpe
        | a :: b :: tl, hpe =>
            rcases List.mem_cons.mp hpe with hh | hh
            · subst hh
              exact ⟨rfl, rfl⟩
            · exact ih pe hh
      · rw [if_neg he] at hpe
        exact ih pe hpe

lemma timeActions_marks_mem (tz : Int) : ∀ (cands : List (DPath × Elem)) (q : DPath) (e : Elem),
    (q, e) ∈ cands → timeEligible e = true → 2 ≤ q.length →
    q ∈ (timeActions tz cands).2.1 := by
  intro cands
  induction cands with
  | nil => intro q e h; cases h
  | cons qe rest ih =>
      obtain ⟨q0, e0⟩ := qe
      intro q e hmem hel hlen
      rw [timeActions]
      unfold timeActionsCons
      rcases List.mem_cons.mp hmem with hh | hh
      · injection hh with h1 h2
        subst h1; subst h2
        rw [if_pos hel]
        match q, hlen with
        | a :: b :: tl, _ => exact List.mem_cons_self _ _
      · have hrec := ih q e hh hel hlen
        by_cases he0 : timeEligible e0 = true
        · rw [if_pos he0]
          match q0 with
          | [] => exact hrec
          | [a] => exact hrec
          | a :: b :: tl => exact List.mem_cons_of_mem _ hrec
        · rw [if_neg he0]
          exact hrec

lemma timeActions_empty (tz : Int) : ∀ cands : List (DPath × Elem),
    (∀ qe ∈ cands, ¬(timeEligible qe.2 = true ∧ 2 ≤ qe.1.length)) →
    (timeActions tz cands).1 = [] ∧ (timeActions tz cands).2.1 = [] := by
  intro cands
  induction cands with
  | nil => intro _; exact ⟨rfl, rfl⟩
  | cons qe rest ih =>
      obtain ⟨q, e⟩ := qe
      intro h
      have hrest := ih fun x hx => h x (List.mem_cons_of_mem _ hx)
      have hhead := h (q, e) (List.mem_cons_self _ _)
      rw [timeActions]
      unfold timeActionsCons
      by_cases he : timeEligible e = true
      · rw [if_pos he]
        match q, hhead with
        | [], _ => exact ⟨hrest.1, hrest.2⟩
        | [a], _ => exact ⟨hrest.1, hrest.2⟩
        | a :: b :: tl, hhead => exact absurd ⟨he, by simp⟩ hhead
      · rw [if_neg he]
        exact hrest

lemma timeEligible_applyPlan (ins : List (DPath × Elem)) (marks : List DPath) (x : Elem) :
    timeEligible (applyPlan timeProcessedAttr ins marks x) =
      (!(decide (([] : DPath) ∈ marks) || hasAttr timeProcessedAttr x) &&
        decide (((getAttr "datetime" x).getD "") ≠ "")) := by
  unfold timeEligible
  rw [applyPlan_hasAttr_ma, applyPlan_getAttr_ne "datetime" timeProcessedAttr (by decide)]

/-- Running the full time pass a second time leaves the document unchanged:
every candidate the first pass annotated is marked, and every remaining
candidate is one the pass never annotates (no grandparent), so the second
pass plans no insertion and no mark. -/
lemma timePass_idem (tz : Int) (doc : Elem) :
    (processAllRelativeTimes tz (processAllRelativeTimes tz doc).1).1 =
      (processAllRelativeTimes tz doc).1 := by
  unfold processAllRelativeTimes
  dsimp only
  have hmaster := applyPlan_qsa isRelTime timeProcessedAttr isRelTime_hch
    (isRelTime_hmk timeProcessedAttr) doc (timeActions tz (qsa isRelTime doc)).1
    (timeActions tz (qsa isRelTime doc)).2.1 (timeActions_ins_spans tz _)
  have hempty : (timeActions tz (qsa isRelTime
      (applyPlan timeProcessedAttr (timeActions tz (qsa isRelTime doc)).1
        (timeActions tz (qsa isRelTime doc)).2.1 doc))).1 = [] ∧
      (timeActions tz (qsa isRelTime
      (applyPlan timeProcessedAttr (timeActions tz (qsa isRelTime doc)).1
        (timeActions tz (qsa isRelTime doc)).2.1 doc))).2.1 = [] := by
    apply timeActions_empty
    rintro ⟨q', x'⟩ hqx ⟨hel, hlen⟩
    dsimp only at hel hlen
    have hmem : depthElem (q', x') ∈
        (qsa isRelTime (applyPlan timeProcessedAttr (timeActions tz (qsa isRelTime doc)).1
          (timeActions tz (qsa isRelTime doc)).2.1 doc)).map depthElem :=
      List.mem_map_of_mem _ hqx
    rw [hmaster, List.mem_map] at hmem
    obtain ⟨⟨q, x⟩, hqmem, heq⟩ := hmem
    dsimp only [depthElem] at heq
    rw [Prod.mk.injEq] at heq
    obtain ⟨hlen2, hx⟩ := heq
    rw [← hx, timeEligible_applyPlan] at hel
    rw [Bool.and_eq_true, Bool.not_eq_true', Bool.or_eq_false_iff] at hel
    obtain ⟨⟨hnm, hmk⟩, hdt⟩ := hel
    have hnotmem : q ∉ (timeActions tz (qsa isRelTime doc)).2.1 := by
      intro hmem2
      have : ([] : DPath) ∈ marksResid q (timeActions tz (qsa isRelTime doc)).2.1 :=
        (marksResid_mem_nil q _).mpr hmem2
      exact absurd this (of_decide_eq_false hnm)
    have helx : timeEligible x = true := by
      unfold timeEligible
      rw [hmk]
      simpa using hdt
    have hq2 : 2 ≤ q.length := by
      have : q.length = q'.length := hlen2
      omega
    exact absurd (timeActions_marks_mem tz (qsa isRelTime doc) q x hqmem helx hq2) hnotmem
  rw [hempty.1, hempty.2, applyPlan_nil]

/-! ## The IDE pass: block correspondence ingredients -/

lemma isDetailsE_hch : ∀ (t : String) (a : List (String × String)) (s : String)
    (c c' : ElemList), isDetailsE (.mk t a s c) = isDetailsE (.mk t a s c') :=
  fun _ _ _ _ _ => rfl

lemma isDetailsE_hmk : ∀ (t : String) (a : List (String × String)) (s : String)
    (c : ElemList),
    isDetailsE (.mk t (setAttrL ideProcessedAttr "true" a) s c) = isDetailsE (.mk t a s c) :=
  fun _ _ _ _ => rfl

lemma isSummaryE_hch : ∀ (t : String) (a : List (String × String)) (s : String)
    (c c' : ElemList), isSummaryE (.mk t a s c) = isSummaryE (.mk t a s c') :=
  fun _ _ _ _ _ => rfl

lemma isSummaryE_hmk : ∀ (t : String) (a : List (String × String)) (s : String)
    (c : ElemList),
    isSummaryE (.mk t (setAttrL ideProcessedAttr "true" a) s c) = isSummaryE (.mk t a s c) :=
  fun _ _ _ _ => rfl

lemma hasClass_setAttrL (cl ma v : String) (h : ¬ (cl = ma) ∧ ¬ ("class" = ma))
    (t : String) (a : List (String × String)) (s : String) (c c' : ElemList) :
    hasClass cl (.mk t (setAttrL ma v a) s c) = hasClass cl (.mk t a s c') := by
  unfold hasClass
  have : getAttr "class" (Elem.mk t (setAttrL ma v a) s c) =
      getAttr "class" (Elem.mk t a s c') := by
    unfold getAttr
    simp only [Elem.attrs]
    rw [find?_setAttrL_ne "class" ma v h.2 a]
  rw [this]

lemma isMonoAnchor_hch : ∀ (t : String) (a : List (String × String)) (s : String)
    (c c' : ElemList), isMonoAnchor (.mk t a s c) = isMonoAnchor (.mk t a s c') :=
  fun _ _ _ _ _ => rfl

lemma isMonoAnchor_hmk : ∀ (t : String) (a : List (String × String)) (s : String)
    (c : ElemList),
    isMonoAnchor (.mk t (setAttrL ideProcessedAttr "true" a) s c) =
      isMonoAnchor (.mk t a s c) := by
  intro t a s c
  unfold isMonoAnchor
  rw [hasClass_setAttrL "text-mono" ideProcessedAttr "true" ⟨by decide, by decide⟩ t a s c c]
  rfl

lemma isLineTd_hch : ∀ (t : String) (a : List (String × String)) (s : String)
    (c c' : ElemList), isLineTd (.mk t a s c) = isLineTd (.mk t a s c') :=
  fun _ _ _ _ _ => rfl

lemma isLineTd_hmk : ∀ (t : String) (a : List (String × String)) (s : String)
    (c : ElemList),
    isLineTd (.mk t (setAttrL ideProcessedAttr "true" a) s c) = isLineTd (.mk t a s c) := by
  intro t a s c
  unfold isLineTd hasAttr
  have : getAttr "data-line-number" (Elem.mk t (setAttrL ideProcessedAttr "true" a) s c) =
      getAttr "data-line-number" (Elem.mk t a s c) := by
    unfold getAttr
    simp only [Elem.attrs]
    rw [find?_setAttrL_ne "data-line-number" ideProcessedAttr "true" (by decide) a]
  rw [this]
  rfl

lemma idePlan_mem (ide pn : String) (doc : Elem) (pe : DPath × Elem)
    (h : pe ∈ idePlan ide pn doc) :
    (∃ b ∈ findReviewCommentBlocks doc, pe.1 = b.aPath) ∧
    ∃ url, pe.2 = createDeepLinkButton url ide := by
  unfold idePlan at h
  rw [List.mem_filterMap] at h
  obtain ⟨b, hb, hmatch⟩ := h
  by_cases h1 : extractFileInfo (some b.anchor) = ""
  · rw [if_pos h1] at hmatch; cases hmatch
  · rw [if_neg h1] at hmatch
    by_cases h2 : constructIDEUrl (extractFileInfo (some b.anchor))
        (extractLineNumber (some b.details)) 0 (some ide) pn = ""
    · rw [if_pos h2] at hmatch; cases hmatch
    · rw [if_neg h2] at hmatch
      injection hmatch with hm
      refine ⟨⟨b, hb, ?_⟩,
        ⟨constructIDEUrl (extractFileInfo (some b.anchor))
          (extractLineNumber (some b.details)) 0 (some ide) pn, ?_⟩⟩
      · rw [← hm]
      · rw [← hm]

lemma idePlan_inert (ide pn : String) (doc : Elem) (pr : Elem → Bool)
    (hbtn : ∀ url, pr (createDeepLinkButton url ide) = false) :
    InertFor pr (idePlan ide pn doc) := by
  intro pe hpe
  obtain ⟨_, url, hurl⟩ := idePlan_mem ide pn doc pe hpe
  rw [hurl]
  exact ⟨hbtn url, rfl⟩

lemma marksResid_mem (p : DPath) (marks : List DPath) :
    ∀ r : DPath, r ∈ marksResid p marks ↔ (p ++ r) ∈ marks := by
  induction p generalizing marks with
  | nil => intro r; rfl
  | cons i p' ih =>
      intro r
      rw [marksResid_cons, ih (subMarks i marks) r, subMarks_mem]
      rfl

/-- First line-number cell's attribute value in a container (the data
`extractLineNumber` consumes). -/
def lineAttrOf (d : Elem) : Option String :=
  (qs isLineTd d).map fun td => (getAttr "data-line-number" td.2).getD ""

/-- The observable data of a located block: anchor text, anchor href, anchor
markedness, and the container's line-number attribute. -/
def blockData (b : RawBlock) : String × Option String × Bool × Option String :=
  (b.anchor.text, getAttr "href" b.anchor, hasAttr ideProcessedAttr b.anchor,
    lineAttrOf b.details)

lemma lineAttrOf_applyPlan (ins : List (DPath × Elem)) (marks : List DPath) (d : Elem)
    (hins : InertFor isLineTd ins) :
    lineAttrOf (applyPlan ideProcessedAttr ins marks d) = lineAttrOf d := by
  unfold lineAttrOf
  have h1 : ∀ o : Option (DPath × Elem),
      (o.map fun td => (getAttr "data-line-number" td.2).getD "") =
        (o.map Prod.snd).map fun x => (getAttr "data-line-number" x).getD "" := by
    intro o; cases o <;> rfl
  rw [h1, h1]
  rw [applyPlan_qs isLineTd ideProcessedAttr isLineTd_hch isLineTd_hmk d ins marks hins]
  have h2 : ∀ o : Option (DPath × Elem),
      ((o.map fun q => applyPlan ideProcessedAttr (insResid q.1 ins) (marksResid q.1 marks)
        q.2).map fun x => (getAttr "data-line-number" x).getD "") =
      (o.map Prod.snd).map fun x => (getAttr "data-line-number" x).getD "" := by
    intro o
    cases o with
    | none => rfl
    | some q =>
        show some ((getAttr "data-line-number" (applyPlan ideProcessedAttr _ _ q.2)).getD "") = _
        rw [applyPlan_getAttr_ne "data-line-number" ideProcessedAttr (by decide)]
        rfl
  rw [h2]

lemma InertFor_insResid {pr : Elem → Bool} {ins : List (DPath × Elem)} (p : DPath)
    (h : InertFor pr ins) : InertFor pr (insResid p ins) := by
  induction p generalizing ins with
  | nil => exact h
  | cons i p' ih => exact ih (InertFor_subIns i h)

/-- Case-split form of the `qs`/`applyPlan` correspondence. -/
lemma qs_applyPlan_cases (pr : Elem → Bool) (ma : String)
    (hch : ∀ t a s c c', pr (.mk t a s c) = pr (.mk t a s c'))
    (hmk : ∀ t a s c, pr (.mk t (setAttrL ma "true" a) s c) = pr (.mk t a s c))
    (e : Elem) (ins : List (DPath × Elem)) (marks : List DPath) (hins : InertFor pr ins) :
    (qs pr e = none ∧ qs pr (applyPlan ma ins marks e) = none) ∨
    (∃ q y, qs pr e = some q ∧ qs pr (applyPlan ma ins marks e) = some y ∧
      y.2 = applyPlan ma (insResid q.1 ins) (marksResid q.1 marks) q.2) := by
  have h := applyPlan_qs pr ma hch hmk e ins marks hins
  cases hqd : qs pr e with
  | none =>
      rw [hqd] at h
      left
      refine ⟨rfl, ?_⟩
      cases hq2 : qs pr (applyPlan ma ins marks e) with
      | none => rfl
      | some y => rw [hq2] at h; cases h
  | some q =>
      rw [hqd] at h
      right
      cases hq2 : qs pr (applyPlan ma ins marks e) with
      | none => rw [hq2] at h; cases h
      | some y =>
          rw [hq2] at h
          injection h with h2
          exact ⟨q, y, rfl, rfl, h2⟩

/-- The summary→anchor data of one container, after `applyPlan`, in terms of
the original container: text, href and line attribute are unchanged; the
anchor is additionally marked exactly when its path (relative to the
container) is in the mark set. -/
lemma anchorChain_applyPlan (ins : List (DPath × Elem)) (marks : List DPath) (d : Elem)
    (hinsS : InertFor isSummaryE ins) (hinsA : InertFor isMonoAnchor ins)
    (hinsT : InertFor isLineTd ins) :
    ((qs isSummaryE (applyPlan ideProcessedAttr ins marks d)).bind fun ps =>
      (qs isMonoAnchor ps.2).map fun pa =>
        (pa.2.text, getAttr "href" pa.2, hasAttr ideProcessedAttr pa.2,
          lineAttrOf (applyPlan ideProcessedAttr ins marks d))) =
    ((qs isSummaryE d).bind fun ps =>
      (qs isMonoAnchor ps.2).map fun pa =>
        (pa.2.text, getAttr "href" pa.2,
          (decide ((ps.1 ++ pa.1) ∈ marks) || hasAttr ideProcessedAttr pa.2),
          lineAttrOf d)) := by
  rw [lineAttrOf_applyPlan ins marks d hinsT]
  rcases qs_applyPlan_cases isSummaryE ideProcessedAttr isSummaryE_hch isSummaryE_hmk
    d ins marks hinsS with ⟨h1, h2⟩ | ⟨ps, ps', h1, h2, h3⟩
  · rw [h1, h2]
    rfl
  · rw [h1, h2]
    simp only [Option.some_bind]
    rw [h3]
    rcases qs_applyPlan_cases isMonoAnchor ideProcessedAttr isMonoAnchor_hch isMonoAnchor_hmk
      ps.2 (insResid ps.1 ins) (marksResid ps.1 marks)
      (InertFor_insResid ps.1 hinsA) with ⟨g1, g2⟩ | ⟨pa, pa', g1, g2, g3⟩
    · rw [g1, g2]
      rfl
    · rw [g1, g2]
      show some _ = some _
      congr 1
      dsimp only
      rw [g3, applyPlan_text, applyPlan_getAttr_ne "href" ideProcessedAttr (by decide),
        applyPlan_hasAttr_ma]
      have hdm : decide (([] : DPath) ∈ marksResid pa.1 (marksResid ps.1 marks)) =
          decide ((ps.1 ++ pa.1) ∈ marks) := by
        rw [decide_eq_decide, ← marksResid_append]
        have := marksResid_mem (ps.1 ++ pa.1) marks []
        rw [List.append_nil] at this
        exact this
      rw [hdm]

/-- The block data one container contributes (summary → anchor → data). -/
def detailData (d : Elem) : Option (String × Option String × Bool × Option String) :=
  (qs isSummaryE d).bind fun ps =>
    (qs isMonoAnchor ps.2).map fun pa =>
      (pa.2.text, getAttr "href" pa.2, hasAttr ideProcessedAttr pa.2, lineAttrOf d)

/-- Located-block correspondence: the data of the blocks located after one
batch application equals the data of the originally located blocks, with the
anchor markedness updated by the mark set. -/
lemma rawBlocks_applyPlan (doc : Elem) (ins : List (DPath × Elem)) (marks : List DPath)
    (hinsD : InertFor isDetailsE ins) (hinsS : InertFor isSummaryE ins)
    (hinsA : InertFor isMonoAnchor ins) (hinsT : InertFor isLineTd ins) :
    (rawBlocks (applyPlan ideProcessedAttr ins marks doc)).map blockData =
      (rawBlocks doc).map fun b =>
        (b.anchor.text, getAttr "href" b.anchor,
          (decide (b.aPath ∈ marks) || hasAttr ideProcessedAttr b.anchor),
          lineAttrOf b.details) := by
  unfold rawBlocks
  rw [List.map_filterMap, List.map_filterMap]
  have hF : ∀ e : Elem, ∀ pd : DPath × Elem,
      ((((qs isSummaryE pd.2).bind fun ps =>
        (qs isMonoAnchor ps.2).map fun pa =>
          (⟨pd.1 ++ ps.1 ++ pa.1, pa.2, pd.2⟩ : RawBlock))).map blockData) =
      detailData pd.2 := by
    intro _ pd
    unfold detailData
    cases hs : qs isSummaryE pd.2 with
    | none => rfl
    | some ps =>
        simp only [Option.some_bind]
        cases ha : qs isMonoAnchor ps.2 with
        | none => rfl
        | some pa => rfl
  have hstep1 : (qsa isDetailsE (applyPlan ideProcessedAttr ins marks doc)).filterMap
      (fun pd => (((qs isSummaryE pd.2).bind fun ps =>
        (qs isMonoAnchor ps.2).map fun pa =>
          (⟨pd.1 ++ ps.1 ++ pa.1, pa.2, pd.2⟩ : RawBlock))).map blockData) =
      (qsa isDetailsE (applyPlan ideProcessedAttr ins marks doc)).filterMap
        (fun pd => detailData pd.2) :=
    List.filterMap_congr fun pd _ => hF doc pd
  rw [hstep1]
  have hsnd : (qsa isDetailsE (applyPlan ideProcessedAttr ins marks doc)).map Prod.snd =
      (qsa isDetailsE doc).map fun pd =>
        applyPlan ideProcessedAttr (insResid pd.1 ins) (marksResid pd.1 marks) pd.2 := by
    have h := applyPlan_qsa isDetailsE ideProcessedAttr isDetailsE_hch isDetailsE_hmk
      doc ins marks hinsD
    have h2 := congrArg (List.map Prod.snd) h
    rw [List.map_map, List.map_map] at h2
    exact h2
  have hstep2 : (qsa isDetailsE (applyPlan ideProcessedAttr ins marks doc)).filterMap
      (fun pd => detailData pd.2) =
      ((qsa isDetailsE (applyPlan ideProcessedAttr ins marks doc)).map Prod.snd).filterMap
        detailData := by
    rw [List.filterMap_map]
    rfl
  rw [hstep2, hsnd, List.filterMap_map]
  apply List.filterMap_congr
  intro pd _
  show detailData (applyPlan ideProcessedAttr (insResid pd.1 ins) (marksResid pd.1 marks)
    pd.2) = _
  unfold detailData
  rw [anchorChain_applyPlan (insResid pd.1 ins) (marksResid pd.1 marks) pd.2
    (InertFor_insResid pd.1 hinsS) (InertFor_insResid pd.1 hinsA)
    (InertFor_insResid pd.1 hinsT)]
  cases hs : qs isSummaryE pd.2 with
  | none => rfl
  | some ps =>
      simp only [Option.some_bind]
      cases ha : qs isMonoAnchor ps.2 with
      | none => rfl
      | some pa =>
          simp only [Option.map_some']
          dsimp only
          have hd : decide ((ps.1 ++ pa.1) ∈ marksResid pd.1 marks) =
              decide ((pd.1 ++ ps.1 ++ pa.1) ∈ marks) := by
            rw [decide_eq_decide, marksResid_mem, ← List.append_assoc]
          rw [hd]

mutual

theorem qsaSelf_pred (pr : Elem → Bool) : ∀ (e : Elem) (q : DPath) (x : Elem),
    (q, x) ∈ qsaSelf pr e → pr x = true
  | .mk t a s c, q, x, h => by
      rw [qsaSelf, List.mem_append] at h
      rcases h with h | h
      · by_cases hp : pr (Elem.mk t a s c) = true
        · rw [if_pos hp] at h
          simp only [List.mem_singleton, Prod.mk.injEq] at h
          rw [h.2]
          exact hp
        · rw [if_neg hp] at h
          cases h
      · exact qsaKids_pred pr c 0 q x h

theorem qsaKids_pred (pr : Elem → Bool) : ∀ (l : ElemList) (i : Nat) (q : DPath) (x : Elem),
    (q, x) ∈ qsaKids pr i l → pr x = true
  | .nil, _, _, _, h => by cases h
  | .cons c cs, i, q, x, h => by
      rw [qsaKids, List.mem_append] at h
      rcases h with h | h
      · rw [List.mem_map] at h
        obtain ⟨⟨q', x'⟩, hq', heq⟩ := h
        have hx : x' = x := congrArg Prod.snd heq
        rw [← hx]
        exact qsaSelf_pred pr c q' x' hq'
      · exact qsaKids_pred pr cs (i + 1) q x h

end

lemma qs_pred (pr : Elem → Bool) (e : Elem) (q : DPath × Elem) (h : qs pr e = some q) :
    pr q.2 = true := by
  unfold qs at h
  have hmem : q ∈ qsa pr e := by
    cases hl : qsa pr e with
    | nil => rw [hl] at h; cases h
    | cons a l =>
        rw [hl] at h
        injection h with h2
        rw [h2] at hl ⊢
        exact List.mem_cons_self _ _
  exact qsaKids_pred pr e.children 0 q.1 q.2 (by
    obtain ⟨q1, q2⟩ := q
    exact hmem)

lemma rawBlocks_anchor (doc : Elem) (b : RawBlock) (h : b ∈ rawBlocks doc) :
    isMonoAnchor b.anchor = true := by
  unfold rawBlocks at h
  rw [List.mem_filterMap] at h
  obtain ⟨pd, _, hmatch⟩ := h
  cases hs : qs isSummaryE pd.2 with
  | none => rw [hs] at hmatch; cases hmatch
  | some ps =>
      rw [hs] at hmatch
      simp only [Option.some_bind] at hmatch
      cases ha : qs isMonoAnchor ps.2 with
      | none => rw [ha] at hmatch; cases hmatch
      | some pa =>
          rw [ha] at hmatch
          simp only [Option.map_some'] at hmatch
          injection hmatch with hm
          rw [← hm]
          exact qs_pred isMonoAnchor ps.2 pa ha

lemma isMonoAnchor_tag (e : Elem) (h : isMonoAnchor e = true) : e.tag = "a" := by
  unfold isMonoAnchor at h
  rw [Bool.and_eq_true] at h
  exact eq_of_beq h.1

/-- `extractFileInfo` on a located anchor is just its trimmed text. -/
lemma extractFileInfo_anchor (a : Elem) (h : a.tag = "a") :
    extractFileInfo (some a) = trimJS a.text := by
  show (if a.tag ≠ "a" then "" else trimJS a.text) = trimJS a.text
  exact if_neg fun hne => hne h

lemma constructIDEUrl_ne_empty (fp pn : String) (line col : Int) (ide : Option String)
    (hfp : ¬ fp = "") (hpn : ¬ pn = "") :
    ¬ constructIDEUrl fp line col ide pn = "" := by
  intro h
  have hshape : constructIDEUrl fp line col ide pn =
      "jetbrains://" ++ (defaultIde ide ++ ("/navigate/reference?project=" ++
        (encodeURIComponent pn ++ ("&path=" ++ (encodeURIComponent fp ++
        (":" ++ (intStr line ++ (":" ++ intStr col)))))))) := by
    simp only [constructIDEUrl, constructIDEUrlRaw, hfp, hpn, decide_False,
      Bool.or_self, Bool.false_eq_true, if_false]
    simp [String.append_assoc]
  rw [hshape] at h
  have hlen := congrArg String.length h
  rw [String.length_append] at hlen
  have h12 : ("jetbrains://" : String).length = 12 := rfl
  have h0 : ("" : String).length = 0 := rfl
  omega

/-- Every located block the pass actually annotates has its anchor path in
the mark set of the plan. -/
lemma idePlan_marks (ide pn : String) (doc : Elem) (b : RawBlock)
    (hb : b ∈ findReviewCommentBlocks doc)
    (hfp : ¬ extractFileInfo (some b.anchor) = "") :
    b.aPath ∈ (idePlan ide pn doc).map Prod.fst ∨ pn = "" := by
  by_cases hpn : pn = ""
  · exact Or.inr hpn
  · left
    rw [List.mem_map]
    refine ⟨(b.aPath, createDeepLinkButton (constructIDEUrl (extractFileInfo (some b.anchor))
      (extractLineNumber (some b.details)) 0 (some ide) pn) ide), ?_, rfl⟩
    unfold idePlan
    rw [List.mem_filterMap]
    refine ⟨b, hb, ?_⟩
    rw [if_neg hfp,
      if_neg (constructIDEUrl_ne_empty _ pn _ 0 (some ide) hfp hpn)]

lemma hrefOk_congr (x y : Elem) (h : getAttr "href" x = getAttr "href" y) :
    hrefOk x = hrefOk y := by
  unfold hrefOk
  rw [h]

lemma button_inert_all (ide : String) :
    (∀ url, isDetailsE (createDeepLinkButton url ide) = false) ∧
    (∀ url, isSummaryE (createDeepLinkButton url ide) = false) ∧
    (∀ url, isMonoAnchor (createDeepLinkButton url ide) = false) ∧
    (∀ url, isLineTd (createDeepLinkButton url ide) = false) :=
  ⟨fun _ => rfl, fun _ => rfl, fun _ => rfl, fun _ => rfl⟩

/-- A second `injectButtons` run against the output of a first run changes
nothing: every annotated anchor is marked and hence no longer located, and
every still-located anchor is one the pass never annotates (empty trimmed
text). -/
lemma idePass_idem (ide pn : String) (doc : Elem) :
    (injectButtons ide pn (injectButtons ide pn doc).doc).doc =
      (injectButtons ide pn doc).doc := by
  by_cases hpn : pn = ""
  · subst hpn
    simp [injectButtons]
  · have hopen : ∀ d : Elem, (injectButtons ide pn d).doc =
        applyPlan ideProcessedAttr (idePlan ide pn d) ((idePlan ide pn d).map Prod.fst) d := by
      intro d
      unfold injectButtons
      rw [if_neg hpn]
    rw [hopen, hopen]
    have hplan2 : idePlan ide pn (applyPlan ideProcessedAttr (idePlan ide pn doc)
        ((idePlan ide pn doc).map Prod.fst) doc) = [] := by
      set doc1 := applyPlan ideProcessedAttr (idePlan ide pn doc)
        ((idePlan ide pn doc).map Prod.fst) doc with hdoc1
      show idePlan ide pn doc1 = []
      unfold idePlan
      rw [List.filterMap_eq_nil]
      intro b' hb'
      rw [show findReviewCommentBlocks doc1 = (rawBlocks doc1).filter
          (fun b => !hasAttr ideProcessedAttr b.anchor && hrefOk b.anchor) from rfl] at hb'
      rw [List.mem_filter] at hb'
      obtain ⟨hraw, hkeep⟩ := hb'
      rw [Bool.and_eq_true, Bool.not_eq_true'] at hkeep
      obtain ⟨hunmarked, hhref⟩ := hkeep
      have hdata : blockData b' ∈ (rawBlocks doc1).map blockData :=
        List.mem_map_of_mem _ hraw
      rw [hdoc1] at hdata
      rw [rawBlocks_applyPlan doc (idePlan ide pn doc) ((idePlan ide pn doc).map Prod.fst)
        (idePlan_inert ide pn doc _ (button_inert_all ide).1)
        (idePlan_inert ide pn doc _ (button_inert_all ide).2.1)
        (idePlan_inert ide pn doc _ (button_inert_all ide).2.2.1)
        (idePlan_inert ide pn doc _ (button_inert_all ide).2.2.2)] at hdata
      rw [List.mem_map] at hdata
      obtain ⟨b, hbmem, hbeq⟩ := hdata
      unfold blockData at hbeq
      rw [Prod.mk.injEq, Prod.mk.injEq, Prod.mk.injEq] at hbeq
      obtain ⟨htext, hhref2, hmarked, hline⟩ := hbeq
      rw [hunmarked] at hmarked
      have hnm : ¬ b.aPath ∈ (idePlan ide pn doc).map Prod.fst ∧
          hasAttr ideProcessedAttr b.anchor = false := by
        rcases Bool.or_eq_false_iff.mp hmarked with ⟨h1, h2⟩
        exact ⟨of_decide_eq_false h1, h2⟩
      have hbblocks : b ∈ findReviewCommentBlocks doc := by
        rw [show findReviewCommentBlocks doc = (rawBlocks doc).filter
          (fun b => !hasAttr ideProcessedAttr b.anchor && hrefOk b.anchor) from rfl]
        rw [List.mem_filter]
        refine ⟨hbmem, ?_⟩
        rw [Bool.and_eq_true, Bool.not_eq_true']
        refine ⟨hnm.2, ?_⟩
        rw [hrefOk_congr b.anchor b'.anchor hhref2]
        exact hhref
      have htag' : b'.anchor.tag = "a" :=
        isMonoAnchor_tag _ (rawBlocks_anchor _ b' hraw)
      have htag : b.anchor.tag = "a" :=
        isMonoAnchor_tag _ (rawBlocks_anchor _ b hbmem)
      by_cases htrim : trimJS b'.anchor.text = ""
      · dsimp only
        rw [extractFileInfo_anchor _ htag', if_pos htrim]
      · exfalso
        have hfp : ¬ extractFileInfo (some b.anchor) = "" := by
          rw [extractFileInfo_anchor _ htag, htext]
          exact htrim
        rcases idePlan_marks ide pn doc b hbblocks hfp with hmem | hemp
        · exact hnm.1 hmem
        · exact hpn hemp
    rw [hplan2]
    rw [show (([] : List (DPath × Elem)).map Prod.fst) = [] from rfl]
    exact applyPlan_nil _


/-! ## Locating elements by recorded path -/

lemma qs_mem (pr : Elem → Bool) (e : Elem) (q : DPath × Elem) (h : qs pr e = some q) :
    q ∈ qsa pr e := by
  unfold qs at h
  cases hl : qsa pr e with
  | nil => rw [hl] at h; cases h
  | cons a l =>
      rw [hl] at h
      injection h with h2
      rw [h2]
      exact List.mem_cons_self _ _

lemma qs_getPathE (pr : Elem → Bool) (e : Elem) (q : DPath × Elem) (h : qs pr e = some q) :
    getPathE e q.1 = some q.2 := by
  obtain ⟨q1, q2⟩ := q
  exact qsa_getPathE pr e q1 q2 (qs_mem pr e (q1, q2) h)

/-- A located block's anchor is the element its recorded path addresses:
two blocks sharing the path share the anchor element. -/
lemma rawBlocks_getPathE (doc : Elem) (b : RawBlock) (h : b ∈ rawBlocks doc) :
    getPathE doc b.aPath = some b.anchor := by
  unfold rawBlocks at h
  rw [List.mem_filterMap] at h
  obtain ⟨pd, hpd, hmatch⟩ := h
  cases hs : qs isSummaryE pd.2 with
  | none => rw [hs] at hmatch; cases hmatch
  | some ps =>
      rw [hs] at hmatch
      simp only [Option.some_bind] at hmatch
      cases ha : qs isMonoAnchor ps.2 with
      | none => rw [ha] at hmatch; cases hmatch
      | some pa =>
          rw [ha] at hmatch
          simp only [Option.map_some'] at hmatch
          injection hmatch with hm
          rw [← hm]
          show getPathE doc (pd.1 ++ ps.1 ++ pa.1) = some pa.2
          have h1 : getPathE doc pd.1 = some pd.2 := by
            obtain ⟨p1, p2⟩ := pd
            exact qsa_getPathE isDetailsE doc p1 p2 hpd
          have h2 : getPathE pd.2 ps.1 = some ps.2 := qs_getPathE _ _ _ hs
          have h3 : getPathE ps.2 pa.1 = some pa.2 := qs_getPathE _ _ _ ha
          rw [getPathE_append, getPathE_append, h1, Option.some_bind, h2,
            Option.some_bind, h3]

/-- Plan membership, keeping the fact that the block's derived file path is
nonempty (the plan skips empty-file-path blocks outright). -/
lemma idePlan_mem_fp (ide pn : String) (doc : Elem) (pe : DPath × Elem)
    (h : pe ∈ idePlan ide pn doc) :
    ∃ b ∈ findReviewCommentBlocks doc,
      pe.1 = b.aPath ∧ ¬ extractFileInfo (some b.anchor) = "" := by
  unfold idePlan at h
  rw [List.mem_filterMap] at h
  obtain ⟨b, hb, hmatch⟩ := h
  by_cases h1 : extractFileInfo (some b.anchor) = ""
  · rw [if_pos h1] at hmatch; cases hmatch
  · rw [if_neg h1] at hmatch
    by_cases h2 : constructIDEUrl (extractFileInfo (some b.anchor))
        (extractLineNumber (some b.details)) 0 (some ide) pn = ""
    · rw [if_pos h2] at hmatch; cases hmatch
    · rw [if_neg h2] at hmatch
      injection hmatch with hm
      exact ⟨b, hb, by rw [← hm], h1⟩

/-! ## C1: idempotence across passes, multiplicity within one pass -/

/-- A deep-link companion button, as `createDeepLinkButton` builds it. -/
def isIdeBtn (e : Elem) : Bool := e.tag == "button" && hasClass "ide-link-btn" e

def c1Anchor : Elem :=
  .mk "a" [("class", "text-mono"), ("href", "/owner/repo/files/1")] "src/a.ts" .nil

/-- Nested `details-collapsible` containers: the outer and the inner one both
resolve (`querySelector`) to the same `summary` and hence to the same anchor. -/
def c1Doc : Elem :=
  .mk "body" [] ""
    (.cons (.mk "details-collapsible" [] ""
      (.cons (.mk "details-collapsible" [] ""
        (.cons (.mk "summary" [] "" (.cons c1Anchor .nil)) .nil)) .nil)) .nil)

/-- Counterexample to C1 as stated: the block list is snapshotted before any
insertion or marking, so nested containers sharing one anchor yield two
blocks for the single eligible candidate, and one run — hence also two
runs — of `injectButtons` inserts two companion buttons next to it, not
exactly one. -/
theorem c1_counterexample :
    (findReviewCommentBlocks c1Doc).map RawBlock.aPath = [[0, 0, 0, 0], [0, 0, 0, 0]] ∧
    countP isIdeBtn c1Doc = 0 ∧
    countP isIdeBtn (injectButtons "idea" "proj" c1Doc).doc = 2 ∧
    countP isIdeBtn
      (injectButtons "idea" "proj" (injectButtons "idea" "proj" c1Doc).doc).doc = 2 := by
  exact ⟨by decide, by decide, by decide, by decide⟩

/-- C1 (amended): the processed marker is a working idempotence mechanism
across passes — running either full pipeline a second time against the
document the first run produced changes nothing (every annotated candidate is
marked and skipped; every unannotated one is skipped again for the same
reason) — but within a single pass the block snapshot may hold one candidate
twice (nested containers sharing an anchor), so "exactly one companion per
eligible candidate" does not hold. -/
theorem c1_second_pass_identity (tz : Int) (ide pn : String) (doc : Elem) :
    (processAllRelativeTimes tz (processAllRelativeTimes tz doc).1).1 =
      (processAllRelativeTimes tz doc).1 ∧
    (injectButtons ide pn (injectButtons ide pn doc).doc).doc =
      (injectButtons ide pn doc).doc :=
  ⟨timePass_idem tz doc, idePass_idem ide pn doc⟩

/-! ## C6: skip semantics of `injectButtons` -/

/-- C6: with an empty project name `injectButtons` performs zero insertions
and logs the warning containing "project name not found"; a located block
whose derived file path is empty contributes nothing to the plan — no node is
created for it and its anchor path is not among the planned (marked) paths —
and with a nonempty project name the pass updates each located anchor's
markedness exactly by plan membership (marker set only with a successful
insertion), leaving the skipped block's anchor unmarked with its data
otherwise untouched. -/
theorem c6_empty_inputs_skip (ide pn : String) (doc : Elem) (b : RawBlock)
    (hb : b ∈ findReviewCommentBlocks doc)
    (hfp : extractFileInfo (some b.anchor) = "") :
    (injectButtons ide "" doc = ⟨doc, [ideWarnNoProject]⟩ ∧
      containsStr ideWarnNoProject "project name not found" = true) ∧
    b.aPath ∉ (idePlan ide pn doc).map Prod.fst ∧
    (¬ pn = "" →
      (rawBlocks (injectButtons ide pn doc).doc).map blockData =
        (rawBlocks doc).map fun x =>
          (x.anchor.text, getAttr "href" x.anchor,
            (decide (x.aPath ∈ (idePlan ide pn doc).map Prod.fst) ||
              hasAttr ideProcessedAttr x.anchor),
            lineAttrOf x.details)) := by
  refine ⟨⟨?_, by decide⟩, ?_, ?_⟩
  · unfold injectButtons
    rw [if_pos rfl]
  · intro hmem
    rw [List.mem_map] at hmem
    obtain ⟨pe, hpe, hpath⟩ := hmem
    obtain ⟨b2, hb2, hpath2, hfp2⟩ := idePlan_mem_fp ide pn doc pe hpe
    have hbraw : b ∈ rawBlocks doc := List.mem_of_mem_filter hb
    have hb2raw : b2 ∈ rawBlocks doc := List.mem_of_mem_filter hb2
    have h1 : getPathE doc b.aPath = some b.anchor := rawBlocks_getPathE doc b hbraw
    have h2 : getPathE doc b2.aPath = some b2.anchor := rawBlocks_getPathE doc b2 hb2raw
    have hpp : b2.aPath = b.aPath := by rw [← hpath2]; exact hpath
    rw [hpp, h1] at h2
    injection h2 with h3
    rw [← h3] at hfp2
    exact hfp2 hfp
  · intro hpn
    have hopen : (injectButtons ide pn doc).doc =
        applyPlan ideProcessedAttr (idePlan ide pn doc)
          ((idePlan ide pn doc).map Prod.fst) doc := by
      unfold injectButtons
      rw [if_neg hpn]
    rw [hopen]
    exact rawBlocks_applyPlan doc (idePlan ide pn doc) ((idePlan ide pn doc).map Prod.fst)
      (idePlan_inert ide pn doc isDetailsE (button_inert_all ide).1)
      (idePlan_inert ide pn doc isSummaryE (button_inert_all ide).2.1)
      (idePlan_inert ide pn doc isMonoAnchor (button_inert_all ide).2.2.1)
      (idePlan_inert ide pn doc isLineTd (button_inert_all ide).2.2.2)

def c6Anchor : Elem := .mk "a" [("class", "text-mono"), ("href", "/o/r/files/2")] " " .nil

def c6Details : Elem :=
  .mk "details-collapsible" [] "" (.cons (.mk "summary" [] "" (.cons c6Anchor .nil)) .nil)

def c6Doc : Elem := .mk "body" [] "" (.cons c6Details .nil)

def c6Block : RawBlock := ⟨[0, 0, 0], c6Anchor, c6Details⟩

theorem c6_witness :
    (injectButtons "idea" "" c6Doc = ⟨c6Doc, [ideWarnNoProject]⟩ ∧
      containsStr ideWarnNoProject "project name not found" = true) ∧
    c6Block.aPath ∉ (idePlan "idea" "proj" c6Doc).map Prod.fst ∧
    (¬ ("proj" : String) = "" →
      (rawBlocks (injectButtons "idea" "proj" c6Doc).doc).map blockData =
        (rawBlocks c6Doc).map fun x =>
          (x.anchor.text, getAttr "href" x.anchor,
            (decide (x.aPath ∈ (idePlan "idea" "proj" c6Doc).map Prod.fst) ||
              hasAttr ideProcessedAttr x.anchor),
            lineAttrOf x.details)) :=
  c6_empty_inputs_skip "idea" "proj" c6Doc c6Block (by decide) (by decide)

/-! ## C8: observer scoping -/

/-- The newly added node of the C8 scenario: a bare `details-collapsible`
containing no anchor at all. -/
def c8Added : Elem := .mk "details-collapsible" [] "" .nil

def c8Anchor : Elem :=
  .mk "a" [("class", "text-mono"), ("href", "/o/r/blob/main/b.ts")] "src/b.ts" .nil

/-- A document with a pre-existing, never-observed review block (child 0) and
the newly added bare container (child 1). -/
def c8Doc : Elem :=
  .mk "body" [] ""
    (.cons (.mk "details-collapsible" [] ""
      (.cons (.mk "summary" [] "" (.cons c8Anchor .nil)) .nil))
      (.cons c8Added .nil))

/-- Counterexample to C8 as stated: the IDE observer is not scoped to the
added subtree.  The added node (a bare container with no anchor, no location
match inside it) triggers the callback, which re-runs `injectButtons` against
the whole document and annotates the pre-existing anchor at path
`[0, 0, 0]` — outside the added subtree rooted at path `[1]`. -/
theorem c8_counterexample :
    ideObserverTriggered c8Added = true ∧
    qsa isMonoAnchor c8Added = [] ∧
    countP isIdeBtn c8Doc = 0 ∧
    countP isIdeBtn (ideObserverStep "idea" "proj" c8Doc [c8Added]) = 1 ∧
    (getPathE (ideObserverStep "idea" "proj" c8Doc [c8Added]) [0, 0, 1]).map Elem.tag =
      some "button" := by
  exact ⟨by decide, by decide, by decide, by decide, by decide⟩

/-- C8 (amended): the time observer is scoped as claimed — every candidate it
processes for an added node at path `p` is the node itself or one of its
descendants (its path extends `p` and addresses an element of the added
subtree) — but the IDE observer is not: for each added node that is or
contains a located container, it re-runs the full-document
`injectButtons` pass, rescanning parts of the document outside the added
subtree. -/
theorem c8_observer_scope (ide pn : String) (doc n : Elem) (p : DPath)
    (addedNodes : List Elem) :
    (∀ qe ∈ timeObserverCandidates p n,
      ∃ r, qe.1 = p ++ r ∧ getPathE n r = some qe.2) ∧
    ideObserverStep ide pn doc addedNodes =
      addedNodes.foldl
        (fun d m => if ideObserverTriggered m then (injectButtons ide pn d).doc else d)
        doc := by
  refine ⟨?_, rfl⟩
  intro qe hqe
  unfold timeObserverCandidates at hqe
  rw [List.mem_append] at hqe
  rcases hqe with hqe | hqe
  · by_cases hn : isRelTime n = true
    · rw [if_pos hn] at hqe
      simp only [List.mem_singleton] at hqe
      subst hqe
      exact ⟨[], (List.append_nil p).symm, rfl⟩
    · rw [if_neg hn] at hqe
      cases hqe
  · rw [List.mem_map] at hqe
    obtain ⟨⟨q1, q2⟩, hq, heq⟩ := hqe
    refine ⟨q1, ?_, ?_⟩
    · rw [← heq]
    · rw [← heq]
      exact qsa_getPathE isRelTime n q1 q2 hq

theorem c8_witness :
    (∀ qe ∈ timeObserverCandidates [1] c8Added,
      ∃ r, qe.1 = [1] ++ r ∧ getPathE c8Added r = some qe.2) ∧
    ideObserverStep "idea" "proj" c8Doc [c8Added] =
      [c8Added].foldl
        (fun d m => if ideObserverTriggered m then (injectButtons "idea" "proj" d).doc
          else d)
        c8Doc :=
  c8_observer_scope "idea" "proj" c8Doc c8Added [1] [c8Added]
